import Mathlib

/-!
Verification of the CAS engine of buildstream against its specification.

The definitions below are a shallow embedding of the Python sources
`src/buildstream/_cas/cascache.py` and
`src/buildstream/storage/_casbaseddirectory.py`.  Machine integers are
modelled as `Nat` with explicit reduction modulo 2^32 where the source
relies on 32-bit wraparound (inside SHA-256), byte buffers as `List Nat`,
and fallible operations return `Except`.  Library code that is not part of
the repository (hashlib, protobuf wire encoding, the gRPC remote) is
modelled from the specification and marked as such in doc comments.
-/

/-! ## SHA-256

Modelled from the spec: `hashlib.sha256` (Python standard library, not part
of the repository).  This is the FIPS-180-4 SHA-256 function over byte
sequences, with the lowercase hexadecimal digest exposed by `hexdigest()`.
-/


deriving instance DecidableEq for Except

/-- Truncation to a 32-bit word. -/
def w32 (n : Nat) : Nat := n % 4294967296

/-- 32-bit right rotation. -/
def rotr (k x : Nat) : Nat := w32 ((x >>> k) ||| (x <<< (32 - k)))

def smallSigma0 (x : Nat) : Nat := (rotr 7 x) ^^^ (rotr 18 x) ^^^ (x >>> 3)

def smallSigma1 (x : Nat) : Nat := (rotr 17 x) ^^^ (rotr 19 x) ^^^ (x >>> 10)

def bigSigma0 (x : Nat) : Nat := (rotr 2 x) ^^^ (rotr 13 x) ^^^ (rotr 22 x)

def bigSigma1 (x : Nat) : Nat := (rotr 6 x) ^^^ (rotr 11 x) ^^^ (rotr 25 x)

def chf (e f g : Nat) : Nat := (e &&& f) ^^^ ((e ^^^ 4294967295) &&& g)

def majf (a b c : Nat) : Nat := (a &&& b) ^^^ (a &&& c) ^^^ (b &&& c)

/-- The 64 SHA-256 round constants. -/
def shaK : List Nat :=
  [1116352408, 1899447441, 3049323471, 3921009573, 961987163, 1508970993,
   2453635748, 2870763221, 3624381080, 310598401, 607225278, 1426881987,
   1925078388, 2162078206, 2614888103, 3248222580, 3835390401, 4022224774,
   264347078, 604807628, 770255983, 1249150122, 1555081692, 1996064986,
   2554220882, 2821834349, 2952996808, 3210313671, 3336571891, 3584528711,
   113926993, 338241895, 666307205, 773529912, 1294757372, 1396182291,
   1695183700, 1986661051, 2177026350, 2456956037, 2730485921, 2820302411,
   3259730800, 3345764771, 3516065817, 3600352804, 4094571909, 275423344,
   430227734, 506948616, 659060556, 883997877, 958139571, 1322822218,
   1537002063, 1747873779, 1955562222, 2024104815, 2227730452, 2361852424,
   2428436474, 2756734187, 3204031479, 3329325298]

/-- The eight 32-bit words of the SHA-256 working state. -/
structure Hash8 where
  a : Nat
  b : Nat
  c : Nat
  d : Nat
  e : Nat
  f : Nat
  g : Nat
  h : Nat
deriving DecidableEq

/-- SHA-256 initial hash value. -/
def shaInit : Hash8 :=
  ⟨0x6a09e667, 0xbb67ae85, 0x3c6ef372, 0xa54ff53a, 0x510e527f, 0x9b05688c, 0x1f83d9ab, 0x5be0cd19⟩

/-- Big-endian byte encoding of `n` on `k` bytes. -/
def toBytesBE (k n : Nat) : List Nat :=
  (List.range k).map (fun i => (n >>> (8 * (k - 1 - i))) % 256)

/-- SHA-256 padding: append 0x80, zero bytes, and the 64-bit big-endian bit length. -/
def sha256pad (msg : List Nat) : List Nat :=
  msg ++ [128] ++ List.replicate ((119 - msg.length % 64) % 64) 0 ++ toBytesBE 8 (8 * msg.length)

/-- Interpret four bytes as a big-endian 32-bit word. -/
def bytesToWord (bs : List Nat) : Nat := bs.foldl (fun acc x => acc * 256 + x % 256) 0

/-- The 16 initial words of a 64-byte chunk. -/
def chunkWords (chunk : List Nat) : List Nat :=
  (List.range 16).map (fun i => bytesToWord ((chunk.drop (4 * i)).take 4))

/-- Extend the message schedule by `k` further words. -/
def extendWords : Nat → List Nat → List Nat
  | 0, w => w
  | k + 1, w =>
      let n := w.length
      let nw := w32 (w.getD (n - 16) 0 + smallSigma0 (w.getD (n - 15) 0) +
                     w.getD (n - 7) 0 + smallSigma1 (w.getD (n - 2) 0))
      extendWords k (w ++ [nw])

/-- One SHA-256 round on the working state, given a (round constant, word) pair. -/
def shaRound (s : Hash8) (kw : Nat × Nat) : Hash8 :=
  let t1 := w32 (s.h + bigSigma1 s.e + chf s.e s.f s.g + kw.1 + kw.2)
  let t2 := w32 (bigSigma0 s.a + majf s.a s.b s.c)
  ⟨w32 (t1 + t2), s.a, s.b, s.c, w32 (s.d + t1), s.e, s.f, s.g⟩

/-- Compress one 64-byte chunk into the hash state. -/
def compress (hs : Hash8) (chunk : List Nat) : Hash8 :=
  let ws := extendWords 48 (chunkWords chunk)
  let fin := (shaK.zip ws).foldl shaRound hs
  ⟨w32 (hs.a + fin.a), w32 (hs.b + fin.b), w32 (hs.c + fin.c), w32 (hs.d + fin.d),
   w32 (hs.e + fin.e), w32 (hs.f + fin.f), w32 (hs.g + fin.g), w32 (hs.h + fin.h)⟩

/-- Split a byte list into 64-byte chunks. -/
def chunks64 (l : List Nat) : List (List Nat) :=
  if hl : l = [] then [] else l.take 64 :: chunks64 (l.drop 64)
termination_by l.length
decreasing_by
  simp only [List.length_drop]
  exact Nat.sub_lt (List.length_pos.mpr hl) (by decide)

/-- The eight final hash words of the SHA-256 of a byte sequence. -/
def sha256words (msg : List Nat) : Hash8 :=
  (chunks64 (sha256pad msg)).foldl compress shaInit

/-- The lowercase hexadecimal digit of a nibble: `0`–`9` are code points
48–57, `a`–`f` are 97–102. -/
def hexChar (n : Nat) : Char :=
  Char.ofNat (if n % 16 < 10 then 48 + n % 16 else 87 + n % 16)

/-- The sixteen lowercase hexadecimal digits. -/
def hexDigits : List Char := (List.range 16).map hexChar

/-- Lowercase hexadecimal rendering of one 32-bit word (8 nibbles, big-endian). -/
def wordHex (w : Nat) : List Char :=
  (List.range 8).map (fun i => hexChar ((w >>> (4 * (7 - i))) % 16))

def hash8List (s : Hash8) : List Nat := [s.a, s.b, s.c, s.d, s.e, s.f, s.g, s.h]

/-- `hashlib.sha256(msg).hexdigest()`: the lowercase hex SHA-256 digest. -/
def sha256hex (msg : List Nat) : String :=
  String.mk (((hash8List (sha256words msg)).map wordHex).flatten)

/-- Modelled from the spec: the incremental `hashlib` hasher object.  `update`
feeds bytes, `hexdigest` returns the lowercase hex digest of everything fed. -/
structure Sha256Ctx where
  fed : List Nat

def Sha256Ctx.update (c : Sha256Ctx) (chunk : List Nat) : Sha256Ctx := ⟨c.fed ++ chunk⟩

def Sha256Ctx.hexdigest (c : Sha256Ctx) : String := sha256hex c.fed

/-! ## Digests and the local object store (`CASCache.add_object`) -/

/-- A Remote Execution v2 `Digest` message: hash and size in bytes. -/
structure Digest where
  hash : String
  size_bytes : Nat
deriving DecidableEq

/-- The on-disk object store: an association of object paths to byte contents.
Only the `objects/` tree is modelled here; refs live in a separate model. -/
structure CASState where
  objects : List (String × List Nat)
deriving DecidableEq

/-- `CASCache.objpath`: `os.path.join(casdir, 'objects', hash[:2], hash[2:])`,
with the cache root fixed to `cas`. -/
def objpath (d : Digest) : String :=
  "cas/objects/" ++ (d.hash.take 2) ++ "/" ++ (d.hash.drop 2)

/-- The error taxonomy of `CASCacheError` as raised by `add_object`. -/
inductive CASErr where
  | casCacheError
deriving DecidableEq

/-- The errno of `EEXIST`; `FileExistsError` is the `OSError` with this errno. -/
def eexist : Nat := 17

/-- A temporary file in the store's tmp directory (`_temporary_object`). -/
structure TmpFile where
  content : List Nat

/-- `CASCache.add_object` for a byte buffer (`buffer=` argument; the `path=`
variant of the source reads a file instead and is not needed by the claims).
The body mirrors the source: hash the buffer, write it to a fresh temporary
file, flush, read the digest from the hasher and the temp file size, then
hardlink the temp file to the final object path.  A `FileExistsError` from the
link is ignored; any other `OSError` (injected here through `fault`, an
optional errno raised by `os.link` when the target is absent) is re-raised as
`CASCacheError`. -/
def add_object (st : CASState) (buffer : List Nat) (fault : Option Nat) :
    Except CASErr (CASState × Digest) :=
  let h := Sha256Ctx.update ⟨[]⟩ buffer
  let tmp : TmpFile := ⟨[] ++ buffer⟩
  let digest : Digest := ⟨h.hexdigest, tmp.content.length⟩
  let p := objpath digest
  if (st.objects.map Prod.fst).contains p then
    .ok (st, digest)
  else
    match fault with
    | some e => if e = eexist then .ok (st, digest) else .error .casCacheError
    | none => .ok (⟨st.objects ++ [(p, tmp.content)]⟩, digest)

/-! ### Helper lemmas about the hex digest -/

structure FileNodeD where
  name : String
  digest : Digest
  is_executable : Bool
deriving DecidableEq

structure DirNode where
  name : String
  digest : Digest
deriving DecidableEq

structure SymNode where
  name : String
  target : String
deriving DecidableEq

structure DirectoryMsg where
  files : List FileNodeD
  directories : List DirNode
  symlinks : List SymNode
deriving DecidableEq

/-- The parse of each stored blob as a `Directory` message, keyed by hash. -/
abbrev Universe := List (String × DirectoryMsg)

def parseDir (u : Universe) (hs : String) : Option DirectoryMsg :=
  (u.find? (fun p => p.1 == hs)).map Prod.snd

inductive TreeErr where
  | refMissing
  | fileNotFound
  | fuelOut
deriving DecidableEq

/-- `diff_trees` reads a tree argument: `None` stands for an absent side and
parses as an empty `Directory()`; otherwise the object is opened and parsed
(`FileNotFoundError` or a protobuf decode failure surface as errors). -/
def readTree (u : Universe) : Option Digest → Except TreeErr DirectoryMsg
  | none => .ok ⟨[], [], []⟩
  | some d =>
      match parseDir u d.hash with
      | some m => .ok m
      | none => .error .fileNotFound

/-- The three output lists `diff_trees` appends to. -/
structure DiffAcc where
  added : List String
  removed : List String
  modified : List String
deriving DecidableEq

def startsWithSlash (s : String) : Bool :=
  match s.data with
  | [] => false
  | c :: _ => c == '/'

def endsWithSlash (s : String) : Bool :=
  match s.data.getLast? with
  | some c => c == '/'
  | none => false

/-- `os.path.join(a, b)` for POSIX paths: an absolute `b` wins; joining onto
the empty string yields `b`; otherwise a separator is inserted unless `a`
already ends with one. -/
def pyJoin (a b : String) : String :=
  if startsWithSlash b then b
  else if a = "" then b
  else if endsWithSlash a then a ++ b
  else a ++ "/" ++ b

def charLt (c d : Char) : Bool := decide (c < d)

/-- Lexicographic comparison of code-point sequences; a strict prefix is
smaller.  This is Python's `<` on `str`. -/
def charListLt : List Char → List Char → Bool
  | [], [] => false
  | [], _ :: _ => true
  | _ :: _, [] => false
  | c :: cs, d :: ds => if charLt c d then true else if charLt d c then false else charListLt cs ds

/-- Python's `<` on strings (code-point lexicographic order). -/
def pyStrLt (a b : String) : Bool := charListLt a.data b.data

/-- The body of the first `while` loop of `CASCache.diff_trees`, one step per
unit of fuel: a two-pointer merge over the (sorted) `files` lists of both
directories.  A name only in `b` is appended to `added`, one only in `a` to
`removed`, and a name in both to `modified` exactly when the digest hashes
differ.  Exhausted fuel returns the accumulator unchanged; the wrapper
`diffFilesLoop` supplies enough fuel for the loop to run to completion. -/
def diffFilesGo (path : String) : Nat → List FileNodeD → List FileNodeD → DiffAcc → DiffAcc
  | 0, _, _, acc => acc
  | _ + 1, [], [], acc => acc
  | n + 1, [], fb :: rb, acc =>
      diffFilesGo path n [] rb { acc with added := acc.added ++ [pyJoin path fb.name] }
  | n + 1, fa :: ra, [], acc =>
      diffFilesGo path n ra [] { acc with removed := acc.removed ++ [pyJoin path fa.name] }
  | n + 1, fa :: ra, fb :: rb, acc =>
      if pyStrLt fb.name fa.name then
        diffFilesGo path n (fa :: ra) rb { acc with added := acc.added ++ [pyJoin path fb.name] }
      else if pyStrLt fa.name fb.name then
        diffFilesGo path n ra (fb :: rb) { acc with removed := acc.removed ++ [pyJoin path fa.name] }
      else
        diffFilesGo path n ra rb
          (if fa.digest.hash ≠ fb.digest.hash then
            { acc with modified := acc.modified ++ [pyJoin path fa.name] }
          else acc)

/-- The first `while` loop of `CASCache.diff_trees` (the `files` merge),
run to completion. -/
def diffFilesLoop (path : String) (fa fb : List FileNodeD) (acc : DiffAcc) : DiffAcc :=
  diffFilesGo path (fa.length + fb.length) fa fb acc

mutual

/-- `CASCache.diff_trees`: parse both trees (an absent side parses as empty),
merge the `files` lists, then merge the `directories` lists recursively.
`fuel` bounds the number of steps; well-formed Merkle trees are finite, so a
large enough fuel always exists. -/
def diffTrees (u : Universe) : Nat → Option Digest → Option Digest → String → DiffAcc →
    Except TreeErr DiffAcc
  | 0, _, _, _, _ => .error .fuelOut
  | fuel + 1, ta, tb, path, acc =>
      match readTree u ta, readTree u tb with
      | .error e, _ => .error e
      | .ok _, .error e => .error e
      | .ok da, .ok db =>
          diffDirsLoop u fuel path da.directories db.directories
            (diffFilesLoop path da.files db.files acc)

/-- The second `while` loop of `CASCache.diff_trees`: a two-pointer merge over
the (sorted) `directories` lists.  A subdirectory only in `b` is recursed with
an absent `a` side (collecting everything as added), symmetrically for `a`;
a subdirectory in both is recursed only when the digest hashes differ. -/
def diffDirsLoop (u : Universe) : Nat → String → List DirNode → List DirNode → DiffAcc →
    Except TreeErr DiffAcc
  | 0, _, _, _, _ => .error .fuelOut
  | _ + 1, _, [], [], acc => .ok acc
  | fuel + 1, path, [], db :: rb, acc => do
      let acc2 ← diffTrees u fuel none (some db.digest) (pyJoin path db.name) acc
      diffDirsLoop u fuel path [] rb acc2
  | fuel + 1, path, da :: ra, [], acc => do
      let acc2 ← diffTrees u fuel (some da.digest) none (pyJoin path da.name) acc
      diffDirsLoop u fuel path ra [] acc2
  | fuel + 1, path, da :: ra, db :: rb, acc =>
      if pyStrLt db.name da.name then do
        let acc2 ← diffTrees u fuel none (some db.digest) (pyJoin path db.name) acc
        diffDirsLoop u fuel path (da :: ra) rb acc2
      else if pyStrLt da.name db.name then do
        let acc2 ← diffTrees u fuel (some da.digest) none (pyJoin path da.name) acc
        diffDirsLoop u fuel path ra (db :: rb) acc2
      else do
        let acc2 ←
          if da.digest.hash ≠ db.digest.hash then
            diffTrees u fuel (some da.digest) (some db.digest) (pyJoin path da.name) acc
          else pure acc
        diffDirsLoop u fuel path ra rb acc2

end

/-- The named refs on disk under `refs/heads`, as a map to digests. -/
abbrev RefStore := List (String × Digest)

/-- `CASCache.resolve_ref`: read and decode the ref file; an absent ref raises
`CASCacheError`. -/
def resolve_ref (rs : RefStore) (ref : String) : Except TreeErr Digest :=
  match (rs.find? (fun p => p.1 == ref)).map Prod.snd with
  | some d => .ok d
  | none => .error .refMissing

/-- `CASCache.diff`: resolve both refs, run `diff_trees` on fresh lists, and
return the triple in the source's order: `(modified, removed, added)`. -/
def casDiff (u : Universe) (rs : RefStore) (fuel : Nat) (ref_a ref_b : String) :
    Except TreeErr (List String × List String × List String) := do
  let ta ← resolve_ref rs ref_a
  let tb ← resolve_ref rs ref_b
  let acc ← diffTrees u fuel (some ta) (some tb) "" ⟨[], [], []⟩
  return (acc.modified, acc.removed, acc.added)

/-! ### C4: the order of the triple returned by `diff` -/

/-- Scenario S6 of the spec: ref `a` holds files `f1, f2`; ref `b` holds
`f1` (changed content) and `f3`. -/
def uS6 : Universe :=
  [("ha", ⟨[⟨"f1", ⟨"h1", 1⟩, false⟩, ⟨"f2", ⟨"h2", 1⟩, false⟩], [], []⟩),
   ("hb", ⟨[⟨"f1", ⟨"h1x", 1⟩, false⟩, ⟨"f3", ⟨"h3", 1⟩, false⟩], [], []⟩)]

def rsS6 : RefStore := [("a", ⟨"ha", 1⟩), ("b", ⟨"hb", 1⟩)]

/-- The sortedness invariant DIR-3 of encoded directories: names strictly
ascending in Python string order. -/
def sortedFiles (l : List FileNodeD) : Prop :=
  l.Pairwise (fun f g => pyStrLt f.name g.name = true)

def fileHasName (l : List FileNodeD) (n : String) : Bool :=
  l.any (fun f => f.name == n)

/-- The files of `xs` whose name does not occur in `ys`. -/
def onlyIn (xs ys : List FileNodeD) : List FileNodeD :=
  xs.filter (fun f => !(fileHasName ys f.name))

/-- The files of `xs` for which `ys` holds a same-named file with a different
digest hash. -/
def modifiedIn (xs ys : List FileNodeD) : List FileNodeD :=
  xs.filter (fun f => ys.any (fun g => g.name == f.name && g.digest.hash != f.digest.hash))

def sortedDirs (l : List DirNode) : Prop :=
  l.Pairwise (fun f g => pyStrLt f.name g.name = true)

/-- Well-formedness of an encoded `Directory`: entry names are nonempty and
slash-free (names are single path components) and the lists are emitted in
strictly ascending name order (invariant DIR-3). -/
def wfMsg (m : DirectoryMsg) : Prop :=
  (∀ f ∈ m.files, f.name ≠ "" ∧ '/' ∉ f.name.data) ∧
  (∀ d ∈ m.directories, d.name ≠ "" ∧ '/' ∉ d.name.data) ∧
  sortedFiles m.files ∧ sortedDirs m.directories

def wfUniverse (u : Universe) : Prop := ∀ p ∈ u, wfMsg p.2

/-- All three output lists of a diff accumulator, concatenated. -/
def accAll (acc : DiffAcc) : List String := acc.added ++ acc.removed ++ acc.modified

/-- `s` is the name of a file node of one of the two parsed trees. -/
def topFileName (u : Universe) (ta tb : Option Digest) (s : String) : Prop :=
  (∃ m, readTree u ta = .ok m ∧ ∃ f ∈ m.files, s = f.name) ∨
  (∃ m, readTree u tb = .ok m ∧ ∃ f ∈ m.files, s = f.name)

/-- Any path appended by `diff_trees` is the join of the current path with
either a top-level file name of the two trees or a relative path that
contains a separator (it descends into a subdirectory). -/
def diffOut (u : Universe) (ta tb : Option Digest) (path x : String) : Prop :=
  ∃ s, x = pyJoin path s ∧ startsWithSlash s = false ∧
    (topFileName u ta tb s ∨ '/' ∈ s.data)

/-- A universe with two single-directory trees holding file `f` (different
contents) and symlink `s`. -/
def uC5 : Universe :=
  [("ca", ⟨[⟨"f", ⟨"hf", 1⟩, false⟩], [], [⟨"s", "f"⟩]⟩),
   ("cb", ⟨[⟨"f", ⟨"hf2", 1⟩, false⟩], [], [⟨"s", "f"⟩]⟩)]

def mC5a : DirectoryMsg := ⟨[⟨"f", ⟨"hf", 1⟩, false⟩], [], [⟨"s", "f"⟩]⟩

def mC5b : DirectoryMsg := ⟨[⟨"f", ⟨"hf2", 1⟩, false⟩], [], [⟨"s", "f"⟩]⟩

structure RemoteState where
  refs : List (String × Digest)
  blobs : List String
  max_batch_total_size_bytes : Nat
  batch_read_supported : Bool
deriving DecidableEq

structure LocalState where
  blobs : List String
  refs : List (String × Digest)
deriving DecidableEq

inductive PullErr where
  | rpcNotFound
  | blobNotFound
  | fileNotFound
  | decodeError
  | fuelOut
deriving DecidableEq

/-- Modelled from the spec: `_CASBatchRead` of casremote.  A batch collects
digests subject to the per-batch size cap. -/
structure CASBatchRead where
  digests : List Digest
deriving DecidableEq

def batchSize (b : CASBatchRead) : Nat := (b.digests.map Digest.size_bytes).sum

/-- `batch.add(digest)`: refuse (returning `false`) when the digest would
push the batch beyond `max_batch_total_size_bytes`. -/
def batchAdd (rem : RemoteState) (b : CASBatchRead) (d : Digest) : Bool × CASBatchRead :=
  if batchSize b + d.size_bytes > rem.max_batch_total_size_bytes then (false, b)
  else (true, ⟨b.digests ++ [d]⟩)

/-- Modelled from the spec: `batch.send` plus `_batch_download_complete`.
Each blob of the batch present on the remote is downloaded into the local
store; a missing blob raises `BlobNotFound` when `collectMode` is off
(`missing_blobs=None`), and is appended to the missing list otherwise.
Errors carry the local state at the point of failure, as Python mutations
persist past a raise. -/
def batchDownloadGo (rem : RemoteState) (collectMode : Bool) :
    List Digest → LocalState → List Digest →
    Except (PullErr × LocalState) (LocalState × List Digest)
  | [], st, miss => .ok (st, miss)
  | d :: ds, st, miss =>
      if rem.blobs.contains d.hash then
        batchDownloadGo rem collectMode ds ⟨st.blobs ++ [d.hash], st.refs⟩ miss
      else if collectMode then
        batchDownloadGo rem collectMode ds st (miss ++ [d])
      else .error (.blobNotFound, st)

/-- `CASCache._ensure_blob`: fetch and add a blob unless already local.  A
blob absent on the remote surfaces the byte-stream gRPC `NOT_FOUND`. -/
def ensureBlob (rem : RemoteState) (st : LocalState) (d : Digest) :
    Except (PullErr × LocalState) LocalState :=
  if st.blobs.contains d.hash then .ok st
  else if rem.blobs.contains d.hash then .ok ⟨st.blobs ++ [d.hash], st.refs⟩
  else .error (.rpcNotFound, st)

/-- `CASCache._fetch_directory_node`: skip a locally present directory blob,
stream an oversized (or batching-unsupported) one immediately, otherwise add
it to the batch, completing the pending batch first when it is full.  The
digest is queued on `fetch_queue` when locally present afterwards, else on
`fetch_next_queue`. -/
def fetchDirectoryNode (rem : RemoteState) (st : LocalState) (d : Digest)
    (batch : CASBatchRead) (fq fnq : List Digest) :
    Except (PullErr × LocalState) (LocalState × CASBatchRead × List Digest × List Digest) :=
  if st.blobs.contains d.hash then
    .ok (st, batch, fq ++ [d], fnq)
  else if d.size_bytes ≥ rem.max_batch_total_size_bytes ∨ rem.batch_read_supported = false then
    match ensureBlob rem st d with
    | .error e => .error e
    | .ok st2 => .ok (st2, batch, fq ++ [d], fnq)
  else
    let r1 := batchAdd rem batch d
    if r1.1 then
      .ok (st, r1.2, fq, fnq ++ [d])
    else
      match batchDownloadGo rem false batch.digests st [] with
      | .error e => .error e
      | .ok (st2, _) =>
          let r2 := batchAdd rem ⟨[]⟩ d
          .ok (st2, r2.2, fq ++ fnq, [] ++ [d])

/-- One pass of `_fetch_directory_node` over the `directories` list of a
parsed directory. -/
def fetchNodesFold (rem : RemoteState) :
    List DirNode → LocalState → CASBatchRead → List Digest → List Digest →
    Except (PullErr × LocalState) (LocalState × CASBatchRead × List Digest × List Digest)
  | [], st, batch, fq, fnq => .ok (st, batch, fq, fnq)
  | dn :: rest, st, batch, fq, fnq =>
      match fetchDirectoryNode rem st dn.digest batch fq fnq with
      | .error e => .error e
      | .ok (st2, batch2, fq2, fnq2) => fetchNodesFold rem rest st2 batch2 fq2 fnq2

/-- `CASCache._fetch_directory`: recursively fetch directory blobs (no file
blobs), driving `fetch_queue`/`fetch_next_queue` and a pending batch, with a
final batch completion when both queues drain. -/
def fetchDirectoryLoop (u : Universe) (rem : RemoteState) :
    Nat → LocalState → List Digest → List Digest → CASBatchRead →
    Except (PullErr × LocalState) LocalState
  | 0, st, _, _, _ => .error (.fuelOut, st)
  | fuel + 1, st, fq, fnq, batch =>
      if fq.length + fnq.length == 0 then
        match batchDownloadGo rem false batch.digests st [] with
        | .error e => .error e
        | .ok (st2, _) => .ok st2
      else
        let step : Except (PullErr × LocalState)
            (LocalState × List Digest × List Digest × CASBatchRead) :=
          if fq.isEmpty then
            match batchDownloadGo rem false batch.digests st [] with
            | .error e => .error e
            | .ok (st2, _) => .ok (st2, fq ++ fnq, [], ⟨[]⟩)
          else .ok (st, fq, fnq, batch)
        match step with
        | .error e => .error e
        | .ok (st1, fq1, fnq1, batch1) =>
            match fq1 with
            | [] => .error (.fileNotFound, st1)
            | d :: fqRest =>
                match ensureBlob rem st1 d with
                | .error e => .error e
                | .ok st2 =>
                    match parseDir u d.hash with
                    | none => .error (.decodeError, st2)
                    | some m =>
                        match fetchNodesFold rem m.directories st2 batch1 fqRest fnq1 with
                        | .error e => .error e
                        | .ok (st3, batch2, fq2, fnq2) =>
                            fetchDirectoryLoop u rem fuel st3 fq2 fnq2 batch2

mutual

/-- `CASCache.required_blobs_for_directory` (no excluded subdirectories):
yield the directory digest itself, then the file digests, then recurse into
each subdirectory. -/
def requiredBlobsForDirectory (u : Universe) (st : LocalState) :
    Nat → Digest → Except PullErr (List Digest)
  | 0, _ => .error .fuelOut
  | fuel + 1, d =>
      if st.blobs.contains d.hash then
        match parseDir u d.hash with
        | none => .error .decodeError
        | some m =>
            match requiredBlobsList u st fuel m.directories with
            | .error e => .error e
            | .ok subs => .ok (d :: m.files.map (fun f => f.digest) ++ subs)
      else .error .fileNotFound

def requiredBlobsList (u : Universe) (st : LocalState) :
    Nat → List DirNode → Except PullErr (List Digest)
  | 0, _ => .error .fuelOut
  | _ + 1, [] => .ok []
  | fuel + 1, dn :: rest =>
      match requiredBlobsForDirectory u st fuel dn.digest with
      | .error e => .error e
      | .ok l1 =>
          match requiredBlobsList u st fuel rest with
          | .error e => .error e
          | .ok l2 => .ok (l1 ++ l2)

end

/-- `CASCache.local_missing_blobs`: the digests whose object path does not
exist locally. -/
def localMissingBlobs (st : LocalState) (digests : List Digest) : List Digest :=
  digests.filter (fun d => !(st.blobs.contains d.hash))

/-- The per-digest loop of `CASCache.fetch_blobs`: oversized (or unbatchable)
blobs are streamed, a gRPC `NOT_FOUND` collecting the digest as missing;
small blobs are batched, completing the pending batch in collect mode when
full. -/
def fetchBlobsGo (rem : RemoteState) :
    List Digest → LocalState → CASBatchRead → List Digest →
    Except (PullErr × LocalState) (LocalState × CASBatchRead × List Digest)
  | [], st, batch, miss => .ok (st, batch, miss)
  | d :: ds, st, batch, miss =>
      if d.size_bytes ≥ rem.max_batch_total_size_bytes ∨ rem.batch_read_supported = false then
        match ensureBlob rem st d with
        | .ok st2 => fetchBlobsGo rem ds st2 batch miss
        | .error (.rpcNotFound, st2) => fetchBlobsGo rem ds st2 batch (miss ++ [d])
        | .error e => .error e
      else
        let r1 := batchAdd rem batch d
        if r1.1 then fetchBlobsGo rem ds st r1.2 miss
        else
          match batchDownloadGo rem true batch.digests st miss with
          | .error e => .error e
          | .ok (st2, miss2) =>
              let r2 := batchAdd rem ⟨[]⟩ d
              fetchBlobsGo rem ds st2 r2.2 miss2

/-- `CASCache.fetch_blobs`: fetch blobs from the remote; returns the digests
of the blobs that were NOT available on the remote (collected, never
raised). -/
def fetch_blobs (rem : RemoteState) (st : LocalState) (digests : List Digest) :
    Except (PullErr × LocalState) (LocalState × List Digest) :=
  match fetchBlobsGo rem digests st ⟨[]⟩ [] with
  | .error e => .error e
  | .ok (st1, batch, miss) =>
      match batchDownloadGo rem true batch.digests st1 miss with
      | .error e => .error e
      | .ok (st2, miss2) => .ok (st2, miss2)

/-- `CASCache.set_ref`: atomically create or replace `refs/heads/<ref>`. -/
def set_ref (st : LocalState) (ref : String) (tree : Digest) : LocalState :=
  ⟨st.blobs, (st.refs.filter (fun p => !(p.1 == ref))) ++ [(ref, tree)]⟩

/-- `CASCache.pull`: look the ref up on the remote, fetch the directory
tree, compute the required blobs, fetch the locally missing ones, set the
local ref and return `True`.  The missing-blob list returned by
`fetch_blobs` is discarded, exactly as in the source.  A gRPC `NOT_FOUND`
or a `BlobNotFound` raised anywhere in the body is caught and `False` is
returned; other errors propagate (`CASCacheError` and the like). -/
def pull (u : Universe) (rem : RemoteState) (fuel : Nat) (st : LocalState) (ref : String) :
    Except (PullErr × LocalState) (LocalState × Bool) :=
  match (rem.refs.find? (fun p => p.1 == ref)).map Prod.snd with
  | none => .ok (st, false)
  | some tree =>
      match fetchDirectoryLoop u rem fuel st [tree] [] ⟨[]⟩ with
      | .error (.rpcNotFound, st2) => .ok (st2, false)
      | .error (.blobNotFound, st2) => .ok (st2, false)
      | .error e => .error e
      | .ok st1 =>
          match requiredBlobsForDirectory u st1 fuel tree with
          | .error e => .error (e, st1)
          | .ok required =>
              let missing := localMissingBlobs st1 required
              match (if missing.isEmpty then .ok (st1, [])
                     else fetch_blobs rem st1 missing) with
              | .error (.rpcNotFound, st2) => .ok (st2, false)
              | .error (.blobNotFound, st2) => .ok (st2, false)
              | .error e => .error e
              | .ok (st2, _) => .ok (set_ref st2 ref tree, true)

/-- A remote holding ref `r` to directory `d` containing one file `f` whose
blob `fb` (1000 bytes, above the 100-byte batch cap) is NOT on the remote. -/
def uPull : Universe := [("d", ⟨[⟨"f", ⟨"fb", 1000⟩, false⟩], [], []⟩)]

def remPull : RemoteState := ⟨[("r", ⟨"d", 10⟩)], ["d"], 100, true⟩

/-- The same remote with no blobs at all. -/
def remEmpty : RemoteState := ⟨[("r", ⟨"d", 10⟩)], [], 100, true⟩

/-- A pb2 node held by an index entry: `FileNode`, `SymlinkNode` or
`DirectoryNode`. -/
inductive PbNode where
  | file : FileNodeD → PbNode
  | sym : SymNode → PbNode
  | dir : DirNode → PbNode
deriving DecidableEq

/-- `CasBasedDirectory`: the pb2 `Directory` message plus the `OrderedDict`
index mapping an entry name to `IndexEntry(pb2_object, buildstream_object,
modified)`.  `buildstream_object` is `some` child directory for directory
entries and `none` for files and symlinks. -/
inductive CasDir : Type where
  | mk : DirectoryMsg → List (String × PbNode × Option CasDir × Bool) → CasDir

def CasDir.pb2_directory : CasDir → DirectoryMsg
  | .mk m _ => m

def CasDir.index : CasDir → List (String × PbNode × Option CasDir × Bool)
  | .mk _ i => i

/-- Python `==` between a `str` and a protobuf message object compares
values of unrelated types and is always `False`.  `delete_entry`'s
`name in collection` membership test uses it. -/
def pyStrEqFileNode (n : String) (f : FileNodeD) : Bool := false

def pyStrEqSymNode (n : String) (s : SymNode) : Bool := false

def pyStrEqDirNode (n : String) (d : DirNode) : Bool := false

/-- `CasBasedDirectory.delete_entry`: for each pb2 collection the source
runs `if name in collection: collection.remove(name)`, but the membership
test compares the string name against node messages and never succeeds, so
the pb2 lists stay untouched; only the index entry (if any) is deleted. -/
def delete_entry (d : CasDir) (name : String) : CasDir :=
  let files := if d.pb2_directory.files.any (pyStrEqFileNode name) then
      d.pb2_directory.files.eraseP (pyStrEqFileNode name) else d.pb2_directory.files
  let symlinks := if d.pb2_directory.symlinks.any (pyStrEqSymNode name) then
      d.pb2_directory.symlinks.eraseP (pyStrEqSymNode name) else d.pb2_directory.symlinks
  let directories := if d.pb2_directory.directories.any (pyStrEqDirNode name) then
      d.pb2_directory.directories.eraseP (pyStrEqDirNode name) else d.pb2_directory.directories
  let idx := if (d.index.map Prod.fst).contains name then
      d.index.eraseP (fun p => p.1 == name) else d.index
  .mk ⟨files, directories, symlinks⟩ idx

/-- `CasBasedDirectory.find_pb2_entry`. -/
def find_pb2_entry (d : CasDir) (name : String) : Option PbNode :=
  match d.index.find? (fun p => p.1 == name) with
  | some p => some p.2.1
  | none => none

/-- The `buildstream_object` of the index entry for `name`. -/
def childOf (d : CasDir) (name : String) : Option CasDir :=
  match d.index.find? (fun p => p.1 == name) with
  | some p => p.2.2.1
  | none => none

/-- `CasBasedDirectory.is_empty`: no entries in the index. -/
def CasDir.is_empty (d : CasDir) : Bool := d.index.length == 0

/-- `FileListResult` of `buildstream.utils`. -/
structure FileListResult where
  overwritten : List String
  ignored : List String
  files_written : List String
deriving DecidableEq

/-- Python-level failures of the virtual-directory layer:
`VirtualDirectoryError`, plus `AttributeError`/`NameError` raised where the
source dereferences `None` or an undefined identifier. -/
inductive VDirErr where
  | attributeError
  | nameError
  | virtualDirectoryError
deriving DecidableEq

/-- `CasBasedDirectory._check_replacement`: decide whether the entry `name`
may be overwritten; delete it and record it in `overwritten` when yes, record
it in `ignored` when it is a non-empty directory. -/
def check_replacement (d : CasDir) (name pfx : String) (res : FileListResult) :
    Except VDirErr (Bool × CasDir × FileListResult) :=
  let relative := pyJoin pfx name
  match find_pb2_entry d name with
  | none => .ok (true, d, res)
  | some (.file _) =>
      .ok (true, delete_entry d name, { res with overwritten := res.overwritten ++ [relative] })
  | some (.sym _) =>
      .ok (true, delete_entry d name, { res with overwritten := res.overwritten ++ [relative] })
  | some (.dir _) =>
      match d.index.find? (fun p => p.1 == name) with
      | some p =>
          match p.2.2.1 with
          | some child =>
              if child.is_empty then
                .ok (true, delete_entry d name,
                  { res with overwritten := res.overwritten ++ [relative] })
              else
                .ok (false, d, { res with ignored := res.ignored ++ [relative] })
          | none => .error .attributeError
      | none => .error .attributeError

/-! ### Protobuf wire encoding

Modelled from the spec: the Remote Execution v2 message encodings (the
generated `_protos` modules are not under `src/`).  Standard proto3 wire
format: varints, length-delimited strings and submessages, default values
omitted — so an empty `Directory` message serializes to the empty byte
string. -/

def varint (n : Nat) : List Nat :=
  if n < 128 then [n] else (n % 128 + 128) :: varint (n / 128)
termination_by n
decreasing_by
  exact Nat.div_lt_self (by omega) (by decide)

def utf8Bytes (s : String) : List Nat := s.toUTF8.data.toList.map (fun b => b.toNat)

def pbKey (fieldNum wireType : Nat) : List Nat := varint (fieldNum * 8 + wireType)

def pbString (fieldNum : Nat) (s : String) : List Nat :=
  if s = "" then [] else pbKey fieldNum 2 ++ varint (utf8Bytes s).length ++ utf8Bytes s

def pbBool (fieldNum : Nat) (b : Bool) : List Nat :=
  if b then pbKey fieldNum 0 ++ [1] else []

def pbInt (fieldNum : Nat) (n : Nat) : List Nat :=
  if n = 0 then [] else pbKey fieldNum 0 ++ varint n

def pbMsg (fieldNum : Nat) (body : List Nat) : List Nat :=
  pbKey fieldNum 2 ++ varint body.length ++ body

def serializeDigest (d : Digest) : List Nat := pbString 1 d.hash ++ pbInt 2 d.size_bytes

def serializeFileNode (f : FileNodeD) : List Nat :=
  pbString 1 f.name ++ pbMsg 2 (serializeDigest f.digest) ++ pbBool 4 f.is_executable

def serializeDirNode (dn : DirNode) : List Nat :=
  pbString 1 dn.name ++ pbMsg 2 (serializeDigest dn.digest)

def serializeSymNode (s : SymNode) : List Nat := pbString 1 s.name ++ pbString 2 s.target

/-- `Directory.SerializeToString()`. -/
def serializeDirectory (m : DirectoryMsg) : List Nat :=
  (m.files.map (fun f => pbMsg 1 (serializeFileNode f))).flatten ++
  (m.directories.map (fun d => pbMsg 2 (serializeDirNode d))).flatten ++
  (m.symlinks.map (fun s => pbMsg 3 (serializeSymNode s))).flatten

/-- Replace the `buildstream_object` of every index entry named `name` (in
Python the parent's index aliases the mutated child object). -/
def updateChild (d : CasDir) (name : String) (c : CasDir) : CasDir :=
  .mk d.pb2_directory
    (d.index.map (fun p => if p.1 == name then (p.1, p.2.1, some c, p.2.2.2) else p))

/-- `CasBasedDirectory._add_new_blank_directory`: create a fresh
`CasBasedDirectory`, add a pb2 `DirectoryNode` carrying the digest of the
empty directory encoding (inserted into the object store), and index it.
The source adds the pb2 node before checking `name in self.index`; the check
is modelled up front because the error path discards the state anyway. -/
def addNewBlankDirectory (cas : CASState) (d : CasDir) (name : String) :
    Except VDirErr (CASState × CasDir × CasDir) :=
  let bst_dir : CasDir := .mk ⟨[], [], []⟩ []
  if (d.index.map Prod.fst).contains name then .error .virtualDirectoryError
  else
    match add_object cas (serializeDirectory ⟨[], [], []⟩) none with
    | .error _ => .error .virtualDirectoryError
    | .ok (cas2, dg) =>
        let dirnode : DirNode := ⟨name, dg⟩
        let d2 : CasDir := .mk
          ⟨d.pb2_directory.files, d.pb2_directory.directories ++ [dirnode],
           d.pb2_directory.symlinks⟩
          (d.index ++ [(name, PbNode.dir dirnode, some bst_dir, false)])
        .ok (cas2, d2, bst_dir)

/-- `CasBasedDirectory.descend`: walk (and with `create` build) levels of
hierarchy.  Skips empty leading segments; descending into a symlink raises
`VirtualDirectoryError` (unimplemented); the final error branch of the
source references the undefined name `entry` and raises `NameError`.
Returns the updated store, the updated `self` and the reached directory. -/
def descend : CASState → CasDir → List String → Bool →
    Except VDirErr (CASState × CasDir × CasDir)
  | cas, d, [], _ => .ok (cas, d, d)
  | cas, d, n :: rest, create =>
      if n = "" then descend cas d rest create
      else
        match d.index.find? (fun p => p.1 == n) with
        | some p =>
            match p.2.2.1 with
            | some child =>
                match descend cas child rest create with
                | .error e => .error e
                | .ok (cas2, child2, target) => .ok (cas2, updateChild d n child2, target)
            | none =>
                match p.2.1 with
                | .sym _ => .error .virtualDirectoryError
                | _ => .error .nameError
        | none =>
            if create then
              match addNewBlankDirectory cas d n with
              | .error e => .error e
              | .ok (cas2, d2, newdir) =>
                  match descend cas2 newdir rest create with
                  | .error e => .error e
                  | .ok (cas3, newdir2, target) => .ok (cas3, updateChild d2 n newdir2, target)
            else .error .virtualDirectoryError

/-- Modelled from the spec: `remove_item`, called by `create_directory`, is
defined nowhere under `src/` (the `Directory` base class file is not in the
corpus).  The spec's create_directory contract says the existing entry is
removed; the repository's removal primitive is `delete_entry`. -/
def remove_item (d : CasDir) (name : String) : CasDir := delete_entry d name

/-- The directory reached from `d` by following a path of names through the
index. -/
def dirAt : CasDir → List String → Option CasDir
  | d, [] => some d
  | d, n :: rest =>
      match childOf d n with
      | some c => dirAt c rest
      | none => none

/-- Replace the directory at `path` under `d`. -/
def updateAt : CasDir → List String → CasDir → CasDir
  | _, [], c => c
  | d, n :: rest, c =>
      match childOf d n with
      | some old => updateChild d n (updateAt old rest c)
      | none => d

/-- Python `str.split(sep)` for a single-character separator, on the
character list. -/
def splitSlashGo : List Char → List Char → List String
  | [], acc => [String.mk acc.reverse]
  | c :: rest, acc =>
      if c = '/' then String.mk acc.reverse :: splitSlashGo rest []
      else splitSlashGo rest (c :: acc)

/-- Python `target.split(os.path.sep)`: note `"".split("/") == [""]`. -/
def pySplitSlash (s : String) : List String := splitSlashGo s.data []

/-- Result of `_resolve_symlink`: a `FileNode`, or a directory given as a
cursor path from the root (`none` models the Python `None` obtained by
ascending past the root). -/
inductive ResolveRes where
  | fileRes : FileNodeD → ResolveRes
  | dirRes : Option (List String) → ResolveRes

/-- The walk of `CasBasedDirectory._resolve_symlink` over the split target.
Faithful to the source: each non-`..` segment is looked up with
`self.find_pb2_entry(c)` — in the directory the resolution STARTED from,
not in the walk directory — while `descend(c, create=True)` is nevertheless
performed on the walk directory.  A missing segment raises the misspelled,
undefined `VirtualDirectoryErorr`, i.e. a Python `NameError`; a symlink
segment raises `VirtualDirectoryError` (chained symlinks unsupported); a
file node terminates the walk. -/
def resolveSymlinkGo (selfPath : List String) :
    List String → CASState → CasDir → Option (List String) →
    Except VDirErr (CASState × CasDir × ResolveRes)
  | [], cas, root, dirCur => .ok (cas, root, .dirRes dirCur)
  | c :: rest, cas, root, dirCur =>
      if c = ".." then
        match dirCur with
        | none => .error .attributeError
        | some [] => resolveSymlinkGo selfPath rest cas root none
        | some ps => resolveSymlinkGo selfPath rest cas root (some ps.dropLast)
      else
        match dirAt root selfPath with
        | none => .error .attributeError
        | some selfDir =>
            match find_pb2_entry selfDir c with
            | none => .error .nameError
            | some (.file f) => .ok (cas, root, .fileRes f)
            | some (.sym _) => .error .virtualDirectoryError
            | some (.dir _) =>
                match dirCur with
                | none => .error .attributeError
                | some dpath =>
                    match dirAt root dpath with
                    | none => .error .attributeError
                    | some dcur =>
                        match descend cas dcur [c] true with
                        | .error e => .error e
                        | .ok (cas2, dcur2, _) =>
                            resolveSymlinkGo selfPath rest cas2 (updateAt root dpath dcur2)
                              (some (dpath ++ [c]))

/-- `CasBasedDirectory._resolve_symlink`: split the target on the path
separator; start from the root for an absolute target, from `self`
otherwise; walk the segments. -/
def resolve_symlink (cas : CASState) (root : CasDir) (selfPath : List String)
    (link : SymNode) : Except VDirErr (CASState × CasDir × ResolveRes) :=
  let absolute := startsWithSlash link.target
  let start : List String := if absolute then [] else selfPath
  resolveSymlinkGo selfPath (pySplitSlash link.target) cas root (some start)

/-- `CasBasedDirectory.symlink_target_is_directory`. -/
def symlink_target_is_directory (cas : CASState) (root : CasDir) (selfPath : List String)
    (link : SymNode) : Except VDirErr (CASState × CasDir × Bool) :=
  match resolve_symlink cas root selfPath link with
  | .error e => .error e
  | .ok (cas2, root2, .dirRes (some _)) => .ok (cas2, root2, true)
  | .ok (cas2, root2, .dirRes none) => .ok (cas2, root2, false)
  | .ok (cas2, root2, .fileRes _) => .ok (cas2, root2, false)

/-- `CasBasedDirectory.create_directory` on a root directory: over a
`FileNode` (or a symlink resolving to a file) the entry is removed and
`descend(name, create=True)` builds a fresh blank subdirectory; a symlink
resolving to a directory is left alone and `None` is returned; otherwise
`descend` creates or returns the subdirectory. -/
def create_directory (cas : CASState) (d : CasDir) (name : String) :
    Except VDirErr (CASState × CasDir × Option CasDir) :=
  match find_pb2_entry d name with
  | some (.file _) =>
      let d2 := remove_item d name
      match descend cas d2 [name] true with
      | .error e => .error e
      | .ok (cas2, d3, target) => .ok (cas2, d3, some target)
  | some (.sym sn) =>
      match symlink_target_is_directory cas d [] sn with
      | .error e => .error e
      | .ok (cas2, d2, true) => .ok (cas2, d2, none)
      | .ok (cas2, d2, false) =>
          let d3 := remove_item d2 name
          match descend cas2 d3 [name] true with
          | .error e => .error e
          | .ok (cas3, d4, target) => .ok (cas3, d4, some target)
  | _ =>
      match descend cas d [name] true with
      | .error e => .error e
      | .ok (cas2, d2, target) => .ok (cas2, d2, some target)

/-! ### Index helper lemmas -/

def fileC8 : FileNodeD := ⟨"c", ⟨"hc", 1⟩, false⟩

/-- A directory `b` containing a single file `c`. -/
def dirB : CasDir := .mk ⟨[fileC8], [], []⟩ [("c", .file fileC8, none, false)]

/-- A root containing directory `b` and symlinks `s -> b/c` and `t -> /b`. -/
def rootC8 : CasDir := .mk ⟨[], [⟨"b", ⟨"hb", 1⟩⟩], [⟨"s", "b/c"⟩, ⟨"t", "/b"⟩]⟩
  [("b", .dir ⟨"b", ⟨"hb", 1⟩⟩, some dirB, false),
   ("s", .sym ⟨"s", "b/c"⟩, none, false),
   ("t", .sym ⟨"t", "/b"⟩, none, false)]

/-- A filesystem fragment: regular files and directories by path.  Paths are
stored in normalized form (no trailing separators). -/
structure FS where
  files : List String
  dirs : List String
deriving DecidableEq

inductive FSErr where
  | fileNotFound
  | enotempty
deriving DecidableEq

def charPrefix : List Char → List Char → Bool
  | [], _ => true
  | _ :: _, [] => false
  | c :: cs, d :: ds => c == d && charPrefix cs ds

def strPrefix (a b : String) : Bool := charPrefix a.data b.data

/-- The syscall layer strips a trailing separator from a directory path. -/
def stripTrailingSlash (p : String) : String :=
  if endsWithSlash p then String.mk p.data.dropLast else p

/-- `os.rmdir`: `FileNotFoundError` when absent, `ENOTEMPTY` when the
directory still has entries under it. -/
def rmdir (fs : FS) (p : String) : Except FSErr FS :=
  let q := stripTrailingSlash p
  if fs.dirs.contains q then
    if (fs.files ++ fs.dirs).any (fun x => strPrefix (q ++ "/") x) then
      .error .enotempty
    else .ok ⟨fs.files, fs.dirs.eraseP (fun x => x == q)⟩
  else .error .fileNotFound

/-- `os.unlink`. -/
def unlink (fs : FS) (p : String) : Except FSErr FS :=
  if fs.files.contains p then .ok ⟨fs.files.eraseP (fun x => x == p), fs.dirs⟩
  else .error .fileNotFound

def allSlashes (l : List Char) : Bool := l.all (fun c => c == '/')

def rstripSlashes (l : List Char) : List Char :=
  (l.reverse.dropWhile (fun c => c == '/')).reverse

/-- `os.path.split` (posixpath): split at the last separator; the head keeps
no trailing separators unless it is all separators. -/
def pySplit (p : String) : String × String :=
  let rev := p.data.reverse
  let revTail := rev.takeWhile (fun c => !(c == '/'))
  let revHead := rev.dropWhile (fun c => !(c == '/'))
  let headRaw := revHead.reverse
  let head :=
    if headRaw ≠ [] ∧ allSlashes headRaw = false then rstripSlashes headRaw else headRaw
  (String.mk head, String.mk revTail.reverse)

/-- `os.path.join(base, *components)`. -/
def pyJoinList (base : String) : List String → String
  | [] => base
  | c :: rest => pyJoinList (pyJoin base c) rest

inductive RemoveErr where
  | casCacheError
deriving DecidableEq

/-- The pruning `while components:` loop of `_remove_ref`: pop the last
component, rebuild the directory path, stop at the base directory, try
`rmdir`; `FileNotFoundError` is ignored and pruning continues upward,
`ENOTEMPTY` stops pruning silently.  Fuel is the initial component count. -/
def pruneGo (basedir : String) : Nat → List String → FS → FS
  | 0, _, fs => fs
  | _ + 1, [], fs => fs
  | n + 1, comps@(_ :: _), fs =>
      let comps2 := comps.dropLast
      let refdir := pyJoinList basedir comps2
      if refdir == basedir then fs
      else
        match rmdir fs refdir with
        | .ok fs2 => pruneGo basedir n comps2 fs2
        | .error .fileNotFound => pruneGo basedir n comps2 fs
        | .error .enotempty => fs

/-- `CASCache._remove_ref`: unlink `basedir/<ref>` (an absent ref raises
`CASCacheError`), then prune with `components = list(os.path.split(ref))` —
note `os.path.split` yields exactly one `(head, tail)` pair, so the loop
sees at most two components regardless of the ref's depth. -/
def remove_ref (fs : FS) (basedir ref : String) : Except RemoveErr FS :=
  let refpath := pyJoin basedir ref
  match unlink fs refpath with
  | .error _ => .error .casCacheError
  | .ok fs2 =>
      let sp := pySplit ref
      .ok (pruneGo basedir 2 [sp.1, sp.2] fs2)

/-- The store of C9's failing input: ref `a/b/c` whose ancestor chain
`refs/heads/a/b`, `refs/heads/a` holds nothing else. -/
def fsC9 : FS :=
  ⟨["refs/heads/a/b/c"], ["refs", "refs/heads", "refs/heads/a", "refs/heads/a/b"]⟩

/-- As `fsC9` but with a sibling ref `a/b/d` keeping `a/b` non-empty. -/
def fsC9b : FS :=
  ⟨["refs/heads/a/b/c", "refs/heads/a/b/d"],
   ["refs", "refs/heads", "refs/heads/a", "refs/heads/a/b"]⟩

/-- A store holding only the single-segment ref `a`. -/
def fsC9c : FS := ⟨["refs/heads/a"], ["refs", "refs/heads"]⟩

theorem hexChar_mem (n : Nat) : hexChar n ∈ hexDigits := by
  have h : n % 16 < 16 := Nat.mod_lt _ (by decide)
  have he : hexChar n = hexChar (n % 16) := by
    simp [hexChar, Nat.mod_mod_of_dvd]
  rw [he, hexDigits]
  exact List.mem_map_of_mem _ (List.mem_range.mpr h)

theorem wordHex_length (w : Nat) : (wordHex w).length = 8 := by
  simp [wordHex]

theorem sha256hex_length (msg : List Nat) : (sha256hex msg).length = 64 := by
  simp [sha256hex, String.length, List.length_flatten, hash8List, List.map_map,
    Function.comp, wordHex_length]

theorem sha256hex_lower (msg : List Nat) :
    ∀ c ∈ (sha256hex msg).data, c ∈ hexDigits := by
  intro c hc
  simp only [sha256hex, String.mk] at hc
  rcases List.mem_flatten.mp hc with ⟨l, hl, hcl⟩
  rcases List.mem_map.mp hl with ⟨w, _, rfl⟩
  rcases List.mem_map.mp hcl with ⟨i, _, rfl⟩
  exact hexChar_mem _

/-- C1: inserting a byte buffer `b` with `add_object` yields a digest whose
hash is the lowercase hexadecimal SHA-256 of `b` (64 characters over the
lowercase hex alphabet) and whose `size_bytes` is the length of `b`. -/
theorem add_object_digest_correct (st : CASState) (b : List Nat) :
    (∃ st2, add_object st b none = .ok (st2, ⟨sha256hex b, b.length⟩)) ∧
    (sha256hex b).length = 64 ∧ (∀ c ∈ (sha256hex b).data, c ∈ hexDigits) := by
  refine ⟨?_, sha256hex_length b, sha256hex_lower b⟩
  simp only [add_object, Sha256Ctx.update, Sha256Ctx.hexdigest, List.nil_append]
  split
  · exact ⟨st, rfl⟩
  · exact ⟨⟨st.objects ++ [(objpath ⟨sha256hex b, b.length⟩, b)]⟩, rfl⟩

/-- C2: insertion is idempotent and classifies OS errors.  If the object path
of `b` is not yet present, a first `add_object` inserts exactly one object
file at that path, a second `add_object` of the same content succeeds
silently and leaves the store unchanged, and an injected non-`EEXIST`
`OSError` during linking is raised as `CASCacheError`. -/
theorem add_object_idempotent_and_errors (st : CASState) (b : List Nat) (e : Nat)
    (hfree : ((st.objects.map Prod.fst).contains (objpath ⟨sha256hex b, b.length⟩)) = false)
    (he : e ≠ 17) :
    (∃ st1 d, add_object st b none = .ok (st1, d) ∧
       add_object st1 b none = .ok (st1, d) ∧
       (st1.objects.filter (fun o => o.1 == objpath d)).length = 1) ∧
    add_object st b (some e) = .error .casCacheError := by
  constructor
  · refine ⟨⟨st.objects ++ [(objpath ⟨sha256hex b, b.length⟩, b)]⟩, ⟨sha256hex b, b.length⟩,
      ?_, ?_, ?_⟩
    · simp only [add_object, Sha256Ctx.update, Sha256Ctx.hexdigest, List.nil_append, hfree,
        Bool.false_eq_true, if_false]
    · simp only [add_object, Sha256Ctx.update, Sha256Ctx.hexdigest, List.nil_append,
        List.map_append]
      simp [List.contains_eq_any_beq]
    · rw [List.filter_append]
      have h1 : st.objects.filter (fun o => o.1 == objpath ⟨sha256hex b, b.length⟩) = [] := by
        rw [List.filter_eq_nil_iff]
        intro o ho hbeq
        have : (st.objects.map Prod.fst).contains (objpath ⟨sha256hex b, b.length⟩) = true := by
          rw [List.contains_eq_any_beq]
          refine List.any_eq_true.mpr ⟨o.1, List.mem_map_of_mem Prod.fst ho, ?_⟩
          have := eq_of_beq hbeq
          simp [this]
        rw [hfree] at this
        exact Bool.false_ne_true this
      rw [h1]
      simp
  · simp only [add_object, Sha256Ctx.update, Sha256Ctx.hexdigest, List.nil_append, hfree,
      Bool.false_eq_true, if_false]
    have : ¬ (e = eexist) := by simpa [eexist] using he
    simp [this]

/-- Witness for C2 at the empty store and buffer `[1]`. -/
theorem add_object_idempotent_and_errors_witness :
    (∃ st1 d, add_object ⟨[]⟩ [1] none = .ok (st1, d) ∧
       add_object st1 [1] none = .ok (st1, d) ∧
       (st1.objects.filter (fun o => o.1 == objpath d)).length = 1) ∧
    add_object ⟨[]⟩ [1] (some 5) = .error .casCacheError := by
  have h := add_object_idempotent_and_errors ⟨[]⟩ [1] 5 (by rfl) (by decide)
  simpa using h

/-! ## Directory messages and the content-addressed universe

`Directory`, `FileNode`, `DirectoryNode`, `SymlinkNode` as in the Remote
Execution v2 wire model used by the source.  For the tree-level operations
(`diff`, `pull`) blobs are modelled content-addressedly: a universe maps a
hash to the `Directory` message that parsing the blob of that hash yields.
-/

/-- C4 counterexample: on S6 the tree walk classifies `added = [f3]`,
`removed = [f2]`, `modified = [f1]`, but `diff` returns the triple
`(modified, removed, added) = ([f1], [f2], [f3])`, not `(added, removed,
modified)` as the claim states. -/
theorem casDiff_order_counterexample :
    casDiff uS6 rsS6 5 "a" "b" = .ok (["f1"], ["f2"], ["f3"]) ∧
    diffTrees uS6 5 (some ⟨"ha", 1⟩) (some ⟨"hb", 1⟩) "" ⟨[], [], []⟩ =
      .ok ⟨["f3"], ["f2"], ["f1"]⟩ ∧
    casDiff uS6 rsS6 5 "a" "b" ≠ .ok (["f3"], ["f2"], ["f1"]) := by
  refine ⟨by decide, by decide, by decide⟩

/-- C4 (amended): for every two resolvable refs, `diff` returns the three
result lists in the order `(modified, removed, added)`. -/
theorem casDiff_returns_modified_removed_added (u : Universe) (rs : RefStore) (fuel : Nat)
    (ref_a ref_b : String) (ta tb : Digest) (acc : DiffAcc)
    (hra : resolve_ref rs ref_a = .ok ta) (hrb : resolve_ref rs ref_b = .ok tb)
    (hd : diffTrees u fuel (some ta) (some tb) "" ⟨[], [], []⟩ = .ok acc) :
    casDiff u rs fuel ref_a ref_b = .ok (acc.modified, acc.removed, acc.added) := by
  simp only [casDiff, hra, hrb, bind, Except.bind]
  rw [hd]
  rfl

/-- Witness for the amended C4 at the S6 scenario. -/
theorem casDiff_returns_modified_removed_added_witness :
    casDiff uS6 rsS6 5 "a" "b" = .ok (["f1"], ["f2"], ["f3"]) :=
  casDiff_returns_modified_removed_added uS6 rsS6 5 "a" "b" ⟨"ha", 1⟩ ⟨"hb", 1⟩
    ⟨["f3"], ["f2"], ["f1"]⟩ (by decide) (by decide) (by decide)

/-! ### Order lemmas for the Python string comparison -/

theorem charLt_irrefl (c : Char) : charLt c c = false := by
  simp [charLt]

theorem charLt_eq {c d : Char} (h1 : charLt c d = false) (h2 : charLt d c = false) : c = d := by
  simp [charLt] at h1 h2
  exact le_antisymm h2 h1

theorem charLt_trans {c d e : Char} (h1 : charLt c d = true) (h2 : charLt d e = true) :
    charLt c e = true := by
  simp [charLt] at *
  exact lt_trans h1 h2

theorem charLt_asymm {c d : Char} (h : charLt c d = true) : charLt d c = false := by
  simp [charLt] at *
  exact le_of_lt h

theorem charListLt_irrefl : ∀ l : List Char, charListLt l l = false
  | [] => rfl
  | c :: cs => by simp [charListLt, charLt_irrefl, charListLt_irrefl cs]

theorem charListLt_eq : ∀ {l m : List Char},
    charListLt l m = false → charListLt m l = false → l = m
  | [], [], _, _ => rfl
  | [], _ :: _, h1, _ => by simp [charListLt] at h1
  | _ :: _, [], _, h2 => by simp [charListLt] at h2
  | c :: cs, d :: ds, h1, h2 => by
      simp only [charListLt] at h1 h2
      by_cases hcd : charLt c d = true
      · simp [hcd] at h1
      · by_cases hdc : charLt d c = true
        · simp [hdc] at h2
        · simp only [Bool.not_eq_true] at hcd hdc
          simp only [hcd, hdc, Bool.false_eq_true, if_false] at h1 h2
          have hce := charLt_eq hcd hdc
          rw [hce, charListLt_eq h1 h2]

theorem charListLt_trans : ∀ {l m n : List Char},
    charListLt l m = true → charListLt m n = true → charListLt l n = true
  | _, [], [], _, h2 => by simp [charListLt] at h2
  | _, _ :: _, [], _, h2 => by simp [charListLt] at h2
  | [], [], _ :: _, h1, _ => by simp [charListLt]
  | [], _ :: _, _ :: _, _, _ => by simp [charListLt]
  | _ :: _, [], _ :: _, h1, _ => by simp [charListLt] at h1
  | c :: cs, d :: ds, e :: es, h1, h2 => by
      simp only [charListLt] at h1 h2 ⊢
      by_cases hcd : charLt c d = true
      · by_cases hde : charLt d e = true
        · simp [charLt_trans hcd hde]
        · by_cases hed : charLt e d = true
          · simp [hde, hed] at h2
          · simp only [Bool.not_eq_true] at hde hed
            rw [charLt_eq hde hed] at hcd
            simp [hcd]
      · by_cases hdc : charLt d c = true
        · simp [hcd, hdc] at h1
        · simp only [Bool.not_eq_true] at hcd hdc
          have hce := charLt_eq hcd hdc
          subst hce
          by_cases hde : charLt c e = true
          · simp [hde]
          · by_cases hed : charLt e c = true
            · simp [hde, hed] at h2
            · simp only [Bool.not_eq_true] at hde hed
              simp only [hde, hed, Bool.false_eq_true, if_false] at h2 ⊢
              simp only [hcd, hdc, Bool.false_eq_true, if_false] at h1
              exact charListLt_trans h1 h2

theorem pyStrLt_irrefl (a : String) : pyStrLt a a = false :=
  charListLt_irrefl a.data

theorem pyStrLt_eq {a b : String} (h1 : pyStrLt a b = false) (h2 : pyStrLt b a = false) :
    a = b :=
  String.ext (charListLt_eq h1 h2)

theorem pyStrLt_trans {a b c : String} (h1 : pyStrLt a b = true) (h2 : pyStrLt b c = true) :
    pyStrLt a c = true :=
  charListLt_trans h1 h2

theorem pyStrLt_ne {a b : String} (h : pyStrLt a b = true) : a ≠ b := by
  intro he
  subst he
  rw [pyStrLt_irrefl] at h
  exact Bool.false_ne_true h

/-! ### C5: classification performed by `diff_trees` -/

theorem fileHasName_cons_ne {y : FileNodeD} {ys : List FileNodeD} {n : String}
    (h : y.name ≠ n) : fileHasName (y :: ys) n = fileHasName ys n := by
  simp [fileHasName, List.any_cons, h]

theorem fileHasName_eq_false {l : List FileNodeD} {n : String}
    (h : ∀ f ∈ l, f.name ≠ n) : fileHasName l n = false := by
  simp only [fileHasName, List.any_eq_false]
  intro f hf
  simp [h f hf]

theorem onlyIn_drophead {xs : List FileNodeD} {y : FileNodeD} {ys : List FileNodeD}
    (h : ∀ x ∈ xs, x.name ≠ y.name) : onlyIn xs (y :: ys) = onlyIn xs ys := by
  unfold onlyIn
  apply List.filter_congr
  intro x hx
  rw [fileHasName_cons_ne (h x hx).symm]

theorem modifiedIn_drophead {xs : List FileNodeD} {y : FileNodeD} {ys : List FileNodeD}
    (h : ∀ x ∈ xs, x.name ≠ y.name) : modifiedIn xs (y :: ys) = modifiedIn xs ys := by
  unfold modifiedIn
  apply List.filter_congr
  intro x hx
  have hy : (y.name == x.name) = false := by simp [(h x hx).symm]
  simp [List.any_cons, hy]

theorem onlyIn_cons_notmem {x : FileNodeD} {xs ys : List FileNodeD}
    (h : fileHasName ys x.name = false) : onlyIn (x :: xs) ys = x :: onlyIn xs ys := by
  simp [onlyIn, List.filter_cons, h]

theorem onlyIn_cons_mem {x : FileNodeD} {xs ys : List FileNodeD}
    (h : fileHasName ys x.name = true) : onlyIn (x :: xs) ys = onlyIn xs ys := by
  simp [onlyIn, List.filter_cons, h]

theorem modifiedIn_cons_nomatch {x : FileNodeD} {xs ys : List FileNodeD}
    (h : ∀ g ∈ ys, g.name ≠ x.name) : modifiedIn (x :: xs) ys = modifiedIn xs ys := by
  unfold modifiedIn
  rw [List.filter_cons]
  have : (ys.any (fun g => g.name == x.name && g.digest.hash != x.digest.hash)) = false := by
    simp only [List.any_eq_false]
    intro g hg
    simp [h g hg]
  simp [this]

theorem modifiedIn_nil (ys : List FileNodeD) : modifiedIn [] ys = [] := rfl

theorem onlyIn_nil (ys : List FileNodeD) : onlyIn [] ys = [] := rfl

theorem onlyIn_nil_right (xs : List FileNodeD) : onlyIn xs [] = xs := by
  simp [onlyIn, fileHasName]

theorem modifiedIn_nil_right (xs : List FileNodeD) : modifiedIn xs [] = [] := by
  simp [modifiedIn]

/-- Characterization of the `files` merge of `diff_trees` on sorted lists:
the loop appends exactly the `b`-only names to `added`, the `a`-only names to
`removed`, and the names present in both sides with differing digest hashes
to `modified`. -/
theorem diffFilesGo_eq (path : String) :
    ∀ (n : Nat) (fa fb : List FileNodeD) (acc : DiffAcc),
      fa.length + fb.length ≤ n → sortedFiles fa → sortedFiles fb →
      diffFilesGo path n fa fb acc =
        ⟨acc.added ++ (onlyIn fb fa).map (fun f => pyJoin path f.name),
         acc.removed ++ (onlyIn fa fb).map (fun f => pyJoin path f.name),
         acc.modified ++ (modifiedIn fa fb).map (fun f => pyJoin path f.name)⟩ := by
  intro n
  induction n with
  | zero =>
      intro fa fb acc hlen _ _
      have hfa : fa = [] := List.eq_nil_of_length_eq_zero (by omega)
      have hfb : fb = [] := List.eq_nil_of_length_eq_zero (by omega)
      subst hfa; subst hfb
      simp [diffFilesGo, onlyIn, modifiedIn]
  | succ n ih =>
      intro fa fb acc hlen ha hb
      match fa, fb with
      | [], [] => simp [diffFilesGo, onlyIn, modifiedIn]
      | [], g :: rb =>
          rw [show diffFilesGo path (n + 1) [] (g :: rb) acc =
            diffFilesGo path n [] rb
              { acc with added := acc.added ++ [pyJoin path g.name] } from rfl]
          rw [ih [] rb _ (by simp at hlen ⊢; omega) (by constructor) hb.of_cons]
          rw [onlyIn_cons_notmem (by rfl)]
          simp [onlyIn_nil, modifiedIn_nil]
      | f :: ra, [] =>
          rw [show diffFilesGo path (n + 1) (f :: ra) [] acc =
            diffFilesGo path n ra []
              { acc with removed := acc.removed ++ [pyJoin path f.name] } from rfl]
          rw [ih ra [] _ (by simp at hlen ⊢; omega) ha.of_cons (by constructor)]
          rw [onlyIn_cons_notmem (by rfl)]
          simp [onlyIn_nil, modifiedIn_nil_right]
      | f :: ra, g :: rb =>
          have hra := (List.pairwise_cons.mp ha).1
          have hrb := (List.pairwise_cons.mp hb).1
          by_cases h1 : pyStrLt g.name f.name = true
          · -- name only on the b side so far: append to added
            have hglt : ∀ x ∈ f :: ra, pyStrLt g.name x.name = true := by
              intro x hx
              rcases List.mem_cons.mp hx with rfl | hx'
              · exact h1
              · exact pyStrLt_trans h1 (hra x hx')
            have hgne : ∀ x ∈ f :: ra, x.name ≠ g.name := by
              intro x hx
              exact (pyStrLt_ne (hglt x hx)).symm
            have e1 : onlyIn (g :: rb) (f :: ra) = g :: onlyIn rb (f :: ra) :=
              onlyIn_cons_notmem (fileHasName_eq_false hgne)
            have e2 : onlyIn (f :: ra) (g :: rb) = onlyIn (f :: ra) rb :=
              onlyIn_drophead hgne
            have e3 : modifiedIn (f :: ra) (g :: rb) = modifiedIn (f :: ra) rb :=
              modifiedIn_drophead hgne
            rw [show diffFilesGo path (n + 1) (f :: ra) (g :: rb) acc =
              diffFilesGo path n (f :: ra) rb
                { acc with added := acc.added ++ [pyJoin path g.name] } by
                simp [diffFilesGo, h1]]
            rw [ih (f :: ra) rb _ (by simp at hlen ⊢; omega) ha hb.of_cons]
            rw [e1, e2, e3]
            simp
          · by_cases h2 : pyStrLt f.name g.name = true
            · -- name only on the a side so far: append to removed
              have hflt : ∀ x ∈ g :: rb, pyStrLt f.name x.name = true := by
                intro x hx
                rcases List.mem_cons.mp hx with rfl | hx'
                · exact h2
                · exact pyStrLt_trans h2 (hrb x hx')
              have hfne : ∀ x ∈ g :: rb, x.name ≠ f.name := by
                intro x hx
                exact (pyStrLt_ne (hflt x hx)).symm
              have e1 : onlyIn (f :: ra) (g :: rb) = f :: onlyIn ra (g :: rb) :=
                onlyIn_cons_notmem (fileHasName_eq_false hfne)
              have e2 : onlyIn (g :: rb) (f :: ra) = onlyIn (g :: rb) ra :=
                onlyIn_drophead hfne
              have e3 : modifiedIn (f :: ra) (g :: rb) = modifiedIn ra (g :: rb) :=
                modifiedIn_cons_nomatch hfne
              rw [show diffFilesGo path (n + 1) (f :: ra) (g :: rb) acc =
                diffFilesGo path n ra (g :: rb)
                  { acc with removed := acc.removed ++ [pyJoin path f.name] } by
                  simp [diffFilesGo, h1, h2]]
              rw [ih ra (g :: rb) _ (by simp at hlen ⊢; omega) ha.of_cons hb]
              rw [e1, e2, e3]
              simp
            · -- same name on both sides
              have hfg : g.name = f.name :=
                pyStrLt_eq (Bool.not_eq_true _ ▸ h1) (Bool.not_eq_true _ ▸ h2)
              have hrane : ∀ x ∈ ra, x.name ≠ g.name := by
                intro x hx
                rw [hfg]
                exact (pyStrLt_ne (hra x hx)).symm
              have hrbne : ∀ x ∈ rb, x.name ≠ f.name := by
                intro x hx
                rw [← hfg]
                exact (pyStrLt_ne (hrb x hx)).symm
              have e1 : onlyIn (g :: rb) (f :: ra) = onlyIn rb ra := by
                rw [onlyIn_cons_mem (by
                  simp [fileHasName, List.any_cons, hfg])]
                exact onlyIn_drophead hrbne
              have e2 : onlyIn (f :: ra) (g :: rb) = onlyIn ra rb := by
                rw [onlyIn_cons_mem (by
                  simp [fileHasName, List.any_cons, hfg])]
                exact onlyIn_drophead hrane
              have hany : ((g :: rb).any
                  (fun g2 => g2.name == f.name && g2.digest.hash != f.digest.hash)) =
                  (g.digest.hash != f.digest.hash) := by
                have hrbany : (rb.any
                    (fun g2 => g2.name == f.name && g2.digest.hash != f.digest.hash)) =
                    false := by
                  simp only [List.any_eq_false]
                  intro x hx
                  simp [hrbne x hx]
                simp [List.any_cons, hrbany, hfg]
              have e3 : modifiedIn (f :: ra) (g :: rb) =
                  (if f.digest.hash ≠ g.digest.hash then
                    f :: modifiedIn ra rb
                  else modifiedIn ra rb) := by
                have hstep : modifiedIn (f :: ra) (g :: rb) =
                    (if ((g :: rb).any
                        (fun g2 => g2.name == f.name && g2.digest.hash != f.digest.hash)) = true
                     then f :: modifiedIn ra (g :: rb) else modifiedIn ra (g :: rb)) := by
                  unfold modifiedIn
                  rw [List.filter_cons]
                rw [hstep, hany, modifiedIn_drophead hrane]
                by_cases hh : f.digest.hash = g.digest.hash
                · simp [hh]
                · have hgf : (g.digest.hash != f.digest.hash) = true := by
                    simp [Ne.symm hh]
                  simp [hgf, hh]
              rw [show diffFilesGo path (n + 1) (f :: ra) (g :: rb) acc =
                diffFilesGo path n ra rb
                  (if f.digest.hash ≠ g.digest.hash then
                    { acc with modified := acc.modified ++ [pyJoin path f.name] }
                  else acc) by
                  simp [diffFilesGo, h1, h2]]
              rw [ih ra rb _ (by simp at hlen ⊢; omega) ha.of_cons hb.of_cons]
              rw [e1, e2, e3]
              by_cases hh : f.digest.hash = g.digest.hash
              · simp [hh]
              · simp [hh]

/-- The `files` merge of `diff_trees`, run to completion, on sorted lists. -/
theorem diffFilesLoop_eq (path : String) (fa fb : List FileNodeD) (acc : DiffAcc)
    (ha : sortedFiles fa) (hb : sortedFiles fb) :
    diffFilesLoop path fa fb acc =
      ⟨acc.added ++ (onlyIn fb fa).map (fun f => pyJoin path f.name),
       acc.removed ++ (onlyIn fa fb).map (fun f => pyJoin path f.name),
       acc.modified ++ (modifiedIn fa fb).map (fun f => pyJoin path f.name)⟩ :=
  diffFilesGo_eq path (fa.length + fb.length) fa fb acc (le_refl _) ha hb

/-- Skipping in the `directories` merge: when a subdirectory is present in
both trees with the same digest hash, `diff_trees` advances both pointers
without recursing, so the whole subtree contributes nothing. -/
theorem diffDirsLoop_skip (u : Universe) (fuel : Nat) (path : String)
    (da db : DirNode) (ra rb : List DirNode) (acc : DiffAcc)
    (hname : da.name = db.name) (hhash : da.digest.hash = db.digest.hash) :
    diffDirsLoop u (fuel + 1) path (da :: ra) (db :: rb) acc =
      diffDirsLoop u fuel path ra rb acc := by
  have h1 : pyStrLt db.name da.name = false := by rw [hname, pyStrLt_irrefl]
  have h2 : pyStrLt da.name db.name = false := by rw [hname, pyStrLt_irrefl]
  simp [diffDirsLoop, h1, h2, hhash]

/-! ### String and path helper lemmas -/

theorem data_ne_nil_of_ne_empty {s : String} (h : s ≠ "") : s.data ≠ [] := by
  intro hd
  exact h (String.ext (by simpa using hd))

theorem not_startsWithSlash {s : String} (h : '/' ∉ s.data) : startsWithSlash s = false := by
  unfold startsWithSlash
  match hd : s.data with
  | [] => rfl
  | c :: cs =>
      have hc : c ≠ '/' := by
        intro hc
        subst hc
        exact h (hd ▸ List.mem_cons_self _ _)
      simp [hc]

theorem not_endsWithSlash {s : String} (h : '/' ∉ s.data) : endsWithSlash s = false := by
  unfold endsWithSlash
  match hd : s.data.getLast? with
  | none => rfl
  | some c =>
      have hc : c ∈ s.data := List.mem_of_mem_getLast? hd
      have : c ≠ '/' := by
        intro hcc
        subst hcc
        exact h hc
      simp [this]

theorem startsWithSlash_append {a : String} (b : String) (ha : a ≠ "") :
    startsWithSlash (a ++ b) = startsWithSlash a := by
  unfold startsWithSlash
  rw [String.data_append]
  match hd : a.data with
  | [] => exact absurd hd (data_ne_nil_of_ne_empty ha)
  | c :: cs => simp

theorem endsWithSlash_append (a : String) {b : String} (hb : b ≠ "") :
    endsWithSlash (a ++ b) = endsWithSlash b := by
  unfold endsWithSlash
  rw [String.data_append, List.getLast?_append]
  match hx : b.data.getLast? with
  | some c => simp
  | none =>
      exact absurd (List.getLast?_eq_none_iff.mp hx) (data_ne_nil_of_ne_empty hb)

theorem append_ne_empty_right (a : String) {b : String} (hb : b ≠ "") : a ++ b ≠ "" := by
  intro hab
  have hd : (a ++ b).data = [] := by rw [hab]
  rw [String.data_append] at hd
  exact (data_ne_nil_of_ne_empty hb) (List.append_eq_nil.mp hd).2

theorem pyJoin_empty_left (b : String) : pyJoin "" b = b := by
  unfold pyJoin
  split
  · rfl
  · simp

theorem pyJoin_of_ne {a b : String} (ha : a ≠ "") (hb : startsWithSlash b = false) :
    pyJoin a b = if endsWithSlash a then a ++ b else a ++ "/" ++ b := by
  unfold pyJoin
  rw [hb]
  simp [ha]

/-- Path-join associativity used by the directory recursion of `diff_trees`:
joining a clean directory name and then a relative remainder is joining the
slash-composed relative path. -/
theorem pyJoin_assoc {p dn t : String} (hdn1 : dn ≠ "") (hdn2 : '/' ∉ dn.data)
    (ht : startsWithSlash t = false) :
    pyJoin (pyJoin p dn) t = pyJoin p (dn ++ "/" ++ t) := by
  have hdnS := not_startsWithSlash hdn2
  have hdnE := not_endsWithSlash hdn2
  have hslash : ("/" : String) ≠ "" := by decide
  have hstart : startsWithSlash (dn ++ "/" ++ t) = false := by
    rw [startsWithSlash_append t (append_ne_empty_right dn hslash),
      startsWithSlash_append "/" hdn1, hdnS]
  by_cases hp : p = ""
  · subst hp
    rw [pyJoin_empty_left, pyJoin_empty_left, pyJoin_of_ne hdn1 ht, hdnE]
    simp [String.append_assoc]
  · rw [pyJoin_of_ne hp hdnS, pyJoin_of_ne hp hstart]
    by_cases he : endsWithSlash p = true
    · simp only [he, if_true]
      rw [pyJoin_of_ne (append_ne_empty_right p hdn1) ht,
        endsWithSlash_append p hdn1, hdnE]
      simp [String.append_assoc]
    · simp only [Bool.not_eq_true] at he
      simp only [he, Bool.false_eq_true, if_false]
      rw [pyJoin_of_ne (append_ne_empty_right _ hdn1) ht,
        endsWithSlash_append _ hdn1, hdnE]
      simp [String.append_assoc]

/-! ### Shape of the `diff_trees` output paths -/

theorem parseDir_wf {u : Universe} (hu : wfUniverse u) {hs : String} {m : DirectoryMsg}
    (h : parseDir u hs = some m) : wfMsg m := by
  unfold parseDir at h
  match hf : u.find? (fun p => p.1 == hs) with
  | none => rw [hf] at h; simp at h
  | some p =>
      rw [hf] at h
      simp only [Option.map_some'] at h
      injection h with h2
      subst h2
      exact hu p (List.mem_of_find?_eq_some hf)

theorem readTree_wf {u : Universe} (hu : wfUniverse u) {t : Option Digest} {m : DirectoryMsg}
    (h : readTree u t = .ok m) : wfMsg m := by
  match t with
  | none =>
      simp only [readTree] at h
      injection h with h2
      subst h2
      exact ⟨by simp, by simp, List.Pairwise.nil, List.Pairwise.nil⟩
  | some d =>
      simp only [readTree] at h
      match hp : parseDir u d.hash with
      | none => rw [hp] at h; cases h
      | some m2 =>
          rw [hp] at h
          injection h with h2
          subst h2
          exact parseDir_wf hu hp

theorem diffOut_to_slash {u : Universe} {ta tb : Option Digest} {path dn x : String}
    (hdn1 : dn ≠ "") (hdn2 : '/' ∉ dn.data)
    (h : diffOut u ta tb (pyJoin path dn) x) :
    ∃ s, x = pyJoin path s ∧ startsWithSlash s = false ∧ '/' ∈ s.data := by
  obtain ⟨s, hx, hs, _⟩ := h
  have hslash : ("/" : String) ≠ "" := by decide
  refine ⟨dn ++ "/" ++ s, ?_, ?_, ?_⟩
  · rw [hx, pyJoin_assoc hdn1 hdn2 hs]
  · rw [startsWithSlash_append s (append_ne_empty_right dn hslash),
      startsWithSlash_append "/" hdn1]
    exact not_startsWithSlash hdn2
  · show '/' ∈ (dn ++ "/" ++ s).data
    rw [String.data_append, String.data_append]
    refine List.mem_append.mpr (Or.inl (List.mem_append.mpr (Or.inr ?_)))
    show '/' ∈ ("/" : String).data
    decide

/-- Membership in `accAll` of the files-merge result, decomposed. -/
theorem accAll_filesLoop {u : Universe} {ta tb : Option Digest}
    {path : String} {ma mb : DirectoryMsg} {acc : DiffAcc} {x : String}
    (hma : readTree u ta = .ok ma) (hmb : readTree u tb = .ok mb)
    (hwa : wfMsg ma) (hwb : wfMsg mb)
    (hx : x ∈ accAll (diffFilesLoop path ma.files mb.files acc)) :
    x ∈ accAll acc ∨ diffOut u ta tb path x := by
  rw [diffFilesLoop_eq path ma.files mb.files acc hwa.2.2.1 hwb.2.2.1] at hx
  have hfile : ∀ (f : FileNodeD), f ∈ ma.files ∨ f ∈ mb.files →
      x = pyJoin path f.name → diffOut u ta tb path x := by
    intro f hf hxf
    refine ⟨f.name, hxf, ?_, Or.inl ?_⟩
    · rcases hf with hf | hf
      · exact not_startsWithSlash (hwa.1 f hf).2
      · exact not_startsWithSlash (hwb.1 f hf).2
    · rcases hf with hf | hf
      · exact Or.inl ⟨ma, hma, f, hf, rfl⟩
      · exact Or.inr ⟨mb, hmb, f, hf, rfl⟩
  simp only [accAll, List.mem_append] at hx
  rcases hx with ((hx | hx) | (hx | hx)) | (hx | hx)
  · exact Or.inl (by simp [accAll, hx])
  · obtain ⟨f, hf, hxf⟩ := List.mem_map.mp hx
    exact Or.inr (hfile f (Or.inr (List.mem_of_mem_filter hf)) hxf.symm)
  · exact Or.inl (by simp [accAll, hx])
  · obtain ⟨f, hf, hxf⟩ := List.mem_map.mp hx
    exact Or.inr (hfile f (Or.inl (List.mem_of_mem_filter hf)) hxf.symm)
  · exact Or.inl (by simp [accAll, hx])
  · obtain ⟨f, hf, hxf⟩ := List.mem_map.mp hx
    exact Or.inr (hfile f (Or.inl (List.mem_of_mem_filter hf)) hxf.symm)

theorem qChainHelper {u : Universe} {n : Nat} {ta' tb' : Option Digest} {path dn x : String}
    {acc acc2 : DiffAcc}
    (ihP : ∀ ta tb path acc res, diffTrees u n ta tb path acc = .ok res →
      ∀ x ∈ accAll res, x ∈ accAll acc ∨ diffOut u ta tb path x)
    (hstep : diffTrees u n ta' tb' (pyJoin path dn) acc = .ok acc2)
    (hdn1 : dn ≠ "") (hdn2 : '/' ∉ dn.data)
    (hx : x ∈ accAll acc2 ∨ ∃ s, x = pyJoin path s ∧ startsWithSlash s = false ∧ '/' ∈ s.data) :
    x ∈ accAll acc ∨ ∃ s, x = pyJoin path s ∧ startsWithSlash s = false ∧ '/' ∈ s.data := by
  rcases hx with hx | hx
  · rcases ihP _ _ _ _ _ hstep x hx with h2 | h2
    · exact Or.inl h2
    · exact Or.inr (diffOut_to_slash hdn1 hdn2 h2)
  · exact Or.inr hx

/-- Every path in the output of `diff_trees` beyond the initial accumulator is
the join of the call path with a top-level file name or with a
separator-containing relative path; the directory merge only ever appends the
latter kind. -/
theorem diff_shape (u : Universe) (hu : wfUniverse u) :
    ∀ fuel : Nat,
      (∀ ta tb path acc res,
        diffTrees u fuel ta tb path acc = .ok res →
        ∀ x ∈ accAll res, x ∈ accAll acc ∨ diffOut u ta tb path x) ∧
      (∀ path la lb acc res,
        (∀ d ∈ la, d.name ≠ "" ∧ '/' ∉ d.name.data) →
        (∀ d ∈ lb, d.name ≠ "" ∧ '/' ∉ d.name.data) →
        diffDirsLoop u fuel path la lb acc = .ok res →
        ∀ x ∈ accAll res,
          x ∈ accAll acc ∨
            ∃ s, x = pyJoin path s ∧ startsWithSlash s = false ∧ '/' ∈ s.data) := by
  intro fuel
  induction fuel with
  | zero =>
      constructor
      · intro ta tb path acc res h
        cases h
      · intro path la lb acc res _ _ h
        cases h
  | succ n ih =>
      constructor
      · -- diffTrees at n + 1
        intro ta tb path acc res h x hx
        simp only [diffTrees] at h
        match hma : readTree u ta, hmb : readTree u tb with
        | .error e, _ =>
            rw [hma] at h
            cases h
        | .ok ma, .error e =>
            rw [hma, hmb] at h
            cases h
        | .ok ma, .ok mb =>
            rw [hma, hmb] at h
            have hwa := readTree_wf hu hma
            have hwb := readTree_wf hu hmb
            have hq := ih.2 path ma.directories mb.directories
              (diffFilesLoop path ma.files mb.files acc) res hwa.2.1 hwb.2.1 h x hx
            rcases hq with hq | hq
            · exact accAll_filesLoop hma hmb hwa hwb hq
            · obtain ⟨s, hxs, hss, hsl⟩ := hq
              exact Or.inr ⟨s, hxs, hss, Or.inr hsl⟩
      · -- diffDirsLoop at n + 1
        intro path la lb acc res hla hlb h x hx
        match la, lb with
        | [], [] =>
            simp only [diffDirsLoop] at h
            injection h with h2
            subst h2
            exact Or.inl hx
        | [], db :: rb =>
            simp only [diffDirsLoop, bind, Except.bind] at h
            match hstep : diffTrees u n none (some db.digest) (pyJoin path db.name) acc with
            | .error e => rw [hstep] at h; cases h
            | .ok acc2 =>
                rw [hstep] at h
                have hdb := hlb db (List.mem_cons_self _ _)
                have hq := ih.2 path [] rb acc2 res (by simp)
                  (fun d hd => hlb d (List.mem_cons_of_mem _ hd)) h x hx
                exact qChainHelper ih.1 hstep hdb.1 hdb.2 hq
        | da :: ra, [] =>
            simp only [diffDirsLoop, bind, Except.bind] at h
            match hstep : diffTrees u n (some da.digest) none (pyJoin path da.name) acc with
            | .error e => rw [hstep] at h; cases h
            | .ok acc2 =>
                rw [hstep] at h
                have hda := hla da (List.mem_cons_self _ _)
                have hq := ih.2 path ra [] acc2 res
                  (fun d hd => hla d (List.mem_cons_of_mem _ hd)) (by simp) h x hx
                exact qChainHelper ih.1 hstep hda.1 hda.2 hq
        | da :: ra, db :: rb =>
            have hda := hla da (List.mem_cons_self _ _)
            have hdb := hlb db (List.mem_cons_self _ _)
            have hla' : ∀ d ∈ ra, d.name ≠ "" ∧ '/' ∉ d.name.data :=
              fun d hd => hla d (List.mem_cons_of_mem _ hd)
            have hlb' : ∀ d ∈ rb, d.name ≠ "" ∧ '/' ∉ d.name.data :=
              fun d hd => hlb d (List.mem_cons_of_mem _ hd)
            simp only [diffDirsLoop, bind, Except.bind] at h
            by_cases hc1 : pyStrLt db.name da.name = true
            · simp only [hc1, if_true] at h
              match hstep : diffTrees u n none (some db.digest) (pyJoin path db.name) acc with
              | .error e => rw [hstep] at h; cases h
              | .ok acc2 =>
                  rw [hstep] at h
                  have hq := ih.2 path (da :: ra) rb acc2 res hla hlb' h x hx
                  exact qChainHelper ih.1 hstep hdb.1 hdb.2 hq
            · simp only [hc1] at h
              by_cases hc2 : pyStrLt da.name db.name = true
              · simp only [hc2, if_true, Bool.false_eq_true, if_false] at h
                match hstep : diffTrees u n (some da.digest) none (pyJoin path da.name) acc with
                | .error e => rw [hstep] at h; cases h
                | .ok acc2 =>
                    rw [hstep] at h
                    have hq := ih.2 path ra (db :: rb) acc2 res hla' hlb h x hx
                    exact qChainHelper ih.1 hstep hda.1 hda.2 hq
              · simp only [hc2, Bool.false_eq_true, if_false] at h
                by_cases hh : da.digest.hash = db.digest.hash
                · simp only [hh, ne_eq, not_true_eq_false, if_false] at h
                  have hq := ih.2 path ra rb acc res hla' hlb' h x hx
                  exact hq
                · simp only [ne_eq, hh, not_false_eq_true, if_true] at h
                  match hstep : diffTrees u n (some da.digest) (some db.digest)
                      (pyJoin path da.name) acc with
                  | .error e => rw [hstep] at h; cases h
                  | .ok acc2 =>
                      rw [hstep] at h
                      have hq := ih.2 path ra rb acc2 res hla' hlb' h x hx
                      exact qChainHelper ih.1 hstep hda.1 hda.2 hq

/-- C5: classification of the tree diff on well-formed (sorted) trees.
(1) In the `files` merge, a name only in `b` is reported added, a name only
in `a` is reported removed, and a name in both is reported modified exactly
when the digest hashes differ.  (2) A subdirectory present in both trees
with equal digest hashes is skipped wholesale: the merge continues as if the
pair were absent, contributing nothing.  (3) Symlink names never appear in
any of the three output lists: every top-level output is a file name of one
of the two directories or a path descending into a subdirectory. -/
theorem diff_trees_classification
    (u : Universe) (fuel : Nat) (path : String)
    (fa fb : List FileNodeD) (acc : DiffAcc)
    (da db : DirNode) (ra rb : List DirNode)
    (ta tb : Digest) (ma mb : DirectoryMsg) (res : DiffAcc) (n : String) :
    (sortedFiles fa → sortedFiles fb →
      diffFilesLoop path fa fb acc =
        ⟨acc.added ++ (onlyIn fb fa).map (fun f => pyJoin path f.name),
         acc.removed ++ (onlyIn fa fb).map (fun f => pyJoin path f.name),
         acc.modified ++ (modifiedIn fa fb).map (fun f => pyJoin path f.name)⟩) ∧
    (da.name = db.name → da.digest.hash = db.digest.hash →
      diffDirsLoop u (fuel + 1) path (da :: ra) (db :: rb) acc =
        diffDirsLoop u fuel path ra rb acc) ∧
    (wfUniverse u →
      diffTrees u fuel (some ta) (some tb) "" ⟨[], [], []⟩ = .ok res →
      readTree u (some ta) = .ok ma → readTree u (some tb) = .ok mb →
      ((ma.symlinks ++ mb.symlinks).any (fun s => s.name == n)) = true →
      (∀ f ∈ ma.files ++ mb.files, f.name ≠ n) →
      (∀ d ∈ ma.directories ++ mb.directories, d.name ≠ n) →
      '/' ∉ n.data →
      n ∉ res.added ∧ n ∉ res.removed ∧ n ∉ res.modified) := by
  refine ⟨fun ha hb => diffFilesLoop_eq path fa fb acc ha hb,
    fun h1 h2 => diffDirsLoop_skip u fuel path da db ra rb acc h1 h2, ?_⟩
  intro hu hres hma hmb _ hnf _ hnx
  have main : n ∉ accAll res := by
    intro hn
    rcases (diff_shape u hu fuel).1 _ _ _ _ _ hres n hn with h | h
    · simp [accAll] at h
    · obtain ⟨s, hns, _, hcase⟩ := h
      rw [pyJoin_empty_left] at hns
      subst hns
      rcases hcase with htop | hslash
      · rcases htop with ⟨m, hm, f, hf, hnf2⟩ | ⟨m, hm, f, hf, hnf2⟩
        · rw [hma] at hm
          injection hm with hm2
          subst hm2
          exact hnf f (List.mem_append.mpr (Or.inl hf)) hnf2.symm
        · rw [hmb] at hm
          injection hm with hm2
          subst hm2
          exact hnf f (List.mem_append.mpr (Or.inr hf)) hnf2.symm
      · exact hnx hslash
  exact ⟨fun hn => main (by simp [accAll, hn]), fun hn => main (by simp [accAll, hn]),
    fun hn => main (by simp [accAll, hn])⟩

/-- Witness for C5: on the concrete trees of `uC5` the diff reports only the
modified file `f`, and the symlink name `s` appears in no output list. -/
theorem diff_trees_classification_witness :
    "s" ∉ (⟨[], [], ["f"]⟩ : DiffAcc).added ∧ "s" ∉ (⟨[], [], ["f"]⟩ : DiffAcc).removed ∧
      "s" ∉ (⟨[], [], ["f"]⟩ : DiffAcc).modified :=
  (diff_trees_classification uC5 3 "" [] [] ⟨[], [], []⟩ ⟨"d", ⟨"x", 1⟩⟩ ⟨"d", ⟨"x", 1⟩⟩
    [] [] ⟨"ca", 1⟩ ⟨"cb", 1⟩ mC5a mC5b ⟨[], [], ["f"]⟩ "s").2.2
    (by
      intro p hp
      simp only [uC5, List.mem_cons, List.not_mem_nil, or_false] at hp
      rcases hp with rfl | rfl
      · exact ⟨by decide, by decide, List.pairwise_singleton _ _, List.Pairwise.nil⟩
      · exact ⟨by decide, by decide, List.pairwise_singleton _ _, List.Pairwise.nil⟩)
    (by decide) (by decide) (by decide) (by decide) (by decide) (by decide)
    (by decide)

/-! ## C3: `CASCache.pull`

The remote (`casremote.py` is not under `src/`) is modelled from the spec:
a ref storage mapping names to digests, a content-addressed blob set, the
negotiated `max_batch_total_size_bytes` and the batch-read capability.
Local state is the set of locally present blob hashes plus `refs/heads`. -/

/-- C3 (code bug): when a required file blob is missing on the remote,
`fetch_blobs` merely returns it in its missing list, which `pull` discards:
`pull` sets the local ref and returns `True` although the blob was never
fetched.  The claim's other legs do hold: an unavailable directory blob
(gRPC `NOT_FOUND` while streaming) and an unknown ref both make `pull`
return `False` without creating the local ref. -/
theorem pull_sets_ref_despite_missing_blob :
    pull uPull remPull 5 ⟨[], []⟩ "r" = .ok (⟨["d"], [("r", ⟨"d", 10⟩)]⟩, true) ∧
    fetch_blobs remPull ⟨["d"], []⟩ [⟨"fb", 1000⟩] = .ok (⟨["d"], []⟩, [⟨"fb", 1000⟩]) ∧
    localMissingBlobs ⟨["d"], [("r", ⟨"d", 10⟩)]⟩ [⟨"fb", 1000⟩] = [⟨"fb", 1000⟩] ∧
    pull uPull remEmpty 5 ⟨[], []⟩ "r" = .ok (⟨[], []⟩, false) ∧
    pull uPull remPull 5 ⟨[], []⟩ "missing" = .ok (⟨[], []⟩, false) := by decide

/-! ## The virtual-directory layer (`CasBasedDirectory`) -/

theorem any_const_false {α : Type} (l : List α) : (l.any fun _ => false) = false := by
  induction l with
  | nil => rfl
  | cons x xs ih => simp [List.any_cons, ih]

theorem find?_key_eraseP {α : Type} (name : String) :
    ∀ l : List (String × α), (l.map Prod.fst).Nodup →
      (l.eraseP (fun p => p.1 == name)).find? (fun p => p.1 == name) = none
  | [], _ => rfl
  | (k, v) :: rest, hnodup => by
      have hnodup' : (k :: rest.map Prod.fst).Nodup := by simpa using hnodup
      have hnd := List.nodup_cons.mp hnodup'
      by_cases hk : k = name
      · subst hk
        rw [List.eraseP_cons_of_pos (by simp)]
        apply List.find?_eq_none.mpr
        intro p hp hbeq
        have hpk : p.1 = k := eq_of_beq hbeq
        exact hnd.1 (by rw [← hpk]; exact List.mem_map_of_mem Prod.fst hp)
      · rw [List.eraseP_cons_of_neg (by simp [hk])]
        rw [List.find?_cons_of_neg _ (by simp [hk])]
        exact find?_key_eraseP name rest hnd.2

theorem contains_of_find?_none {α : Type} {l : List (String × α)} {name : String}
    (h : l.find? (fun p => p.1 == name) = none) :
    (l.map Prod.fst).contains name = false := by
  rw [List.contains_eq_any_beq]
  apply List.any_eq_false.mpr
  intro k hk hbeq
  obtain ⟨p, hp, rfl⟩ := List.mem_map.mp hk
  have hne := List.find?_eq_none.mp h p hp
  exact hne (by simp [eq_of_beq hbeq])

theorem find?_none_of_contains {α : Type} {l : List (String × α)} {name : String}
    (h : (l.map Prod.fst).contains name = false) :
    l.find? (fun p => p.1 == name) = none := by
  apply List.find?_eq_none.mpr
  intro p hp hbeq
  rw [List.contains_eq_any_beq] at h
  have := List.any_eq_false.mp h p.1 (List.mem_map_of_mem Prod.fst hp)
  exact this (by simp [eq_of_beq hbeq])

theorem delete_entry_pb2 (d : CasDir) (name : String) :
    (delete_entry d name).pb2_directory = d.pb2_directory := by
  match d with
  | .mk m idx =>
      match m with
      | .mk fs ds ss =>
          unfold delete_entry
          have h1 : fs.any (pyStrEqFileNode name) = false := by
            simp [List.any_eq_false, pyStrEqFileNode]
          have h2 : ds.any (pyStrEqDirNode name) = false := by
            simp [List.any_eq_false, pyStrEqDirNode]
          have h3 : ss.any (pyStrEqSymNode name) = false := by
            simp [List.any_eq_false, pyStrEqSymNode]
          simp [CasDir.pb2_directory, CasDir.index, h1, h2, h3]

theorem delete_entry_index (d : CasDir) (name : String) :
    (delete_entry d name).index =
      (if (d.index.map Prod.fst).contains name then
        d.index.eraseP (fun p => p.1 == name) else d.index) := by
  match d with
  | .mk m idx =>
      unfold delete_entry
      simp only [CasDir.index]

theorem casDir_ext {a b : CasDir} (h1 : a.pb2_directory = b.pb2_directory)
    (h2 : a.index = b.index) : a = b := by
  match a, b with
  | .mk m1 i1, .mk m2 i2 =>
      simp only [CasDir.pb2_directory, CasDir.index] at h1 h2
      rw [h1, h2]

/-- After `delete_entry`, the index no longer resolves `name` (unique keys). -/
theorem find_pb2_entry_delete (d : CasDir) (name : String)
    (hnodup : (d.index.map Prod.fst).Nodup) :
    find_pb2_entry (delete_entry d name) name = none := by
  unfold find_pb2_entry
  rw [delete_entry_index]
  by_cases hc : (d.index.map Prod.fst).contains name = true
  · simp only [hc, if_true]
    rw [find?_key_eraseP name d.index hnodup]
  · simp only [Bool.not_eq_true] at hc
    simp only [hc, Bool.false_eq_true, if_false]
    rw [find?_none_of_contains hc]

theorem contains_delete (d : CasDir) (name : String)
    (hnodup : (d.index.map Prod.fst).Nodup) :
    ((delete_entry d name).index.map Prod.fst).contains name = false := by
  apply contains_of_find?_none
  have h := find_pb2_entry_delete d name hnodup
  unfold find_pb2_entry at h
  match hf : (delete_entry d name).index.find? (fun p => p.1 == name) with
  | none => exact hf
  | some p => rw [hf] at h; cases h

/-- `add_object` with no injected fault always succeeds. -/
theorem add_object_none_ok (st : CASState) (b : List Nat) :
    ∃ st2, add_object st b none = .ok (st2, ⟨sha256hex b, b.length⟩) := by
  simp only [add_object, Sha256Ctx.update, Sha256Ctx.hexdigest, List.nil_append]
  split
  · exact ⟨st, rfl⟩
  · exact ⟨⟨st.objects ++ [(objpath ⟨sha256hex b, b.length⟩, b)]⟩, rfl⟩

/-- C10: `delete_entry` is total (never raises, a no-op on an absent name)
and leaves all three pb2 collections — and hence the next serialized
encoding — unchanged; only the in-memory index entry is removed. -/
theorem delete_entry_frame (d : CasDir) (name : String) :
    (delete_entry d name).pb2_directory = d.pb2_directory ∧
    serializeDirectory (delete_entry d name).pb2_directory =
      serializeDirectory d.pb2_directory ∧
    (delete_entry d name).index =
      (if (d.index.map Prod.fst).contains name then
        d.index.eraseP (fun p => p.1 == name) else d.index) ∧
    ((d.index.map Prod.fst).contains name = false → delete_entry d name = d) := by
  refine ⟨delete_entry_pb2 d name, by rw [delete_entry_pb2], delete_entry_index d name, ?_⟩
  intro hc
  have h2 := delete_entry_index d name
  rw [hc] at h2
  simp only [Bool.false_eq_true, if_false] at h2
  exact casDir_ext (delete_entry_pb2 d name) h2

/-- Witness for C10 at a directory with one file entry and an absent name. -/
theorem delete_entry_frame_witness :
    (delete_entry (.mk ⟨[⟨"a", ⟨"h", 1⟩, false⟩], [], []⟩
        [("a", .file ⟨"a", ⟨"h", 1⟩, false⟩, none, false)]) "b").pb2_directory =
      (CasDir.mk ⟨[⟨"a", ⟨"h", 1⟩, false⟩], [], []⟩
        [("a", .file ⟨"a", ⟨"h", 1⟩, false⟩, none, false)]).pb2_directory ∧
    delete_entry (.mk ⟨[⟨"a", ⟨"h", 1⟩, false⟩], [], []⟩
        [("a", .file ⟨"a", ⟨"h", 1⟩, false⟩, none, false)]) "b" =
      .mk ⟨[⟨"a", ⟨"h", 1⟩, false⟩], [], []⟩
        [("a", .file ⟨"a", ⟨"h", 1⟩, false⟩, none, false)] := by
  have h := delete_entry_frame (.mk ⟨[⟨"a", ⟨"h", 1⟩, false⟩], [], []⟩
    [("a", .file ⟨"a", ⟨"h", 1⟩, false⟩, none, false)]) "b"
  exact ⟨h.1, h.2.2.2 (by rfl)⟩

/-- C6: the four-case overwrite policy of `_check_replacement`.  An absent
name permits with no change; an existing file or symlink entry is deleted,
recorded in `overwritten`, and permitted; an existing empty subdirectory is
deleted, recorded in `overwritten`, and permitted; a non-empty subdirectory
is recorded in `ignored`, denied, and the directory is left unchanged. -/
theorem check_replacement_policy (d : CasDir) (name pfx : String) (res : FileListResult)
    (hnodup : (d.index.map Prod.fst).Nodup) :
    (find_pb2_entry d name = none →
      check_replacement d name pfx res = .ok (true, d, res)) ∧
    (∀ fn, find_pb2_entry d name = some (.file fn) →
      check_replacement d name pfx res =
        .ok (true, delete_entry d name,
          { res with overwritten := res.overwritten ++ [pyJoin pfx name] }) ∧
      find_pb2_entry (delete_entry d name) name = none) ∧
    (∀ sn, find_pb2_entry d name = some (.sym sn) →
      check_replacement d name pfx res =
        .ok (true, delete_entry d name,
          { res with overwritten := res.overwritten ++ [pyJoin pfx name] }) ∧
      find_pb2_entry (delete_entry d name) name = none) ∧
    (∀ dn child, find_pb2_entry d name = some (.dir dn) → childOf d name = some child →
      (child.is_empty = true →
        check_replacement d name pfx res =
          .ok (true, delete_entry d name,
            { res with overwritten := res.overwritten ++ [pyJoin pfx name] }) ∧
        find_pb2_entry (delete_entry d name) name = none) ∧
      (child.is_empty = false →
        check_replacement d name pfx res =
          .ok (false, d, { res with ignored := res.ignored ++ [pyJoin pfx name] }))) := by
  refine ⟨?_, ?_, ?_, ?_⟩
  · intro h
    simp [check_replacement, h]
  · intro fn h
    exact ⟨by simp [check_replacement, h], find_pb2_entry_delete d name hnodup⟩
  · intro sn h
    exact ⟨by simp [check_replacement, h], find_pb2_entry_delete d name hnodup⟩
  · intro dn child hdn hchild
    unfold childOf at hchild
    constructor
    · intro hemp
      refine ⟨?_, find_pb2_entry_delete d name hnodup⟩
      match hfp : d.index.find? (fun p => p.1 == name) with
      | none => rw [hfp] at hchild; cases hchild
      | some p =>
          rw [hfp] at hchild
          have hchild2 : p.2.2.1 = some child := hchild
          simp [check_replacement, hdn, hfp, hchild2, hemp]
    · intro hemp
      match hfp : d.index.find? (fun p => p.1 == name) with
      | none => rw [hfp] at hchild; cases hchild
      | some p =>
          rw [hfp] at hchild
          have hchild2 : p.2.2.1 = some child := hchild
          simp [check_replacement, hdn, hfp, hchild2, hemp]

/-- Witness for C6: overwriting a file entry. -/
theorem check_replacement_policy_witness :
    check_replacement
        (.mk ⟨[⟨"a", ⟨"h", 1⟩, false⟩], [], []⟩
          [("a", .file ⟨"a", ⟨"h", 1⟩, false⟩, none, false)]) "a" "" ⟨[], [], []⟩ =
      .ok (true,
        delete_entry (.mk ⟨[⟨"a", ⟨"h", 1⟩, false⟩], [], []⟩
          [("a", .file ⟨"a", ⟨"h", 1⟩, false⟩, none, false)]) "a",
        ⟨[pyJoin "" "a"], [], []⟩) ∧
    find_pb2_entry
        (delete_entry (.mk ⟨[⟨"a", ⟨"h", 1⟩, false⟩], [], []⟩
          [("a", .file ⟨"a", ⟨"h", 1⟩, false⟩, none, false)]) "a") "a" = none :=
  (check_replacement_policy
    (.mk ⟨[⟨"a", ⟨"h", 1⟩, false⟩], [], []⟩
      [("a", .file ⟨"a", ⟨"h", 1⟩, false⟩, none, false)]) "a" "" ⟨[], [], []⟩
    (by decide)).2.1 ⟨"a", ⟨"h", 1⟩, false⟩ (by rfl)

theorem find?_map_update {idx : List (String × PbNode × Option CasDir × Bool)} {name : String}
    (hnone : idx.find? (fun p => p.1 == name) = none)
    (node : PbNode) (c0 c : CasDir) (m : Bool) :
    ((idx ++ [(name, node, some c0, m)]).map
        (fun p => if p.1 == name then (p.1, p.2.1, some c, p.2.2.2) else p)).find?
      (fun p => p.1 == name) = some (name, node, some c, m) := by
  rw [List.map_append, List.find?_append]
  have h1 : (idx.map
      (fun p => if p.1 == name then (p.1, p.2.1, some c, p.2.2.2) else p)).find?
      (fun p => p.1 == name) = none := by
    apply List.find?_eq_none.mpr
    intro q hq hbeq
    obtain ⟨p, hp, hfq⟩ := List.mem_map.mp hq
    have hq1 : q.1 = p.1 := by
      rw [← hfq]
      by_cases hc : (p.1 == name) = true <;> simp [hc]
    have hp1 := List.find?_eq_none.mp hnone p hp
    rw [hq1] at hbeq
    exact hp1 hbeq
  rw [h1]
  simp

theorem find_childOf_updateChild (msg : DirectoryMsg)
    (idx : List (String × PbNode × Option CasDir × Bool)) (name : String)
    (hnone : idx.find? (fun p => p.1 == name) = none)
    (node : PbNode) (c0 c : CasDir) (m : Bool) :
    find_pb2_entry (updateChild (.mk msg (idx ++ [(name, node, some c0, m)])) name c) name =
      some node ∧
    childOf (updateChild (.mk msg (idx ++ [(name, node, some c0, m)])) name c) name =
      some c := by
  unfold find_pb2_entry childOf updateChild
  simp only [CasDir.index]
  rw [find?_map_update hnone]
  exact ⟨rfl, rfl⟩

/-- `descend [name] create=True` on a directory without an entry `name`
creates and returns a fresh blank subdirectory, indexed under `name` with a
pb2 `DirectoryNode` carrying the empty-directory digest. -/
theorem descend_create_fresh (cas : CASState) (d2 : CasDir) (name : String)
    (hname : name ≠ "")
    (hfind : d2.index.find? (fun p => p.1 == name) = none) :
    ∃ cas2 d3 dg, descend cas d2 [name] true =
      .ok (cas2, d3, .mk ⟨[], [], []⟩ []) ∧
      find_pb2_entry d3 name = some (.dir ⟨name, dg⟩) ∧
      childOf d3 name = some (.mk ⟨[], [], []⟩ []) := by
  obtain ⟨cas2, hadd⟩ := add_object_none_ok cas (serializeDirectory ⟨[], [], []⟩)
  have hcont := contains_of_find?_none hfind
  have hblank : addNewBlankDirectory cas d2 name =
      .ok (cas2,
        .mk ⟨d2.pb2_directory.files,
             d2.pb2_directory.directories ++
               [⟨name, ⟨sha256hex (serializeDirectory ⟨[], [], []⟩),
                 (serializeDirectory ⟨[], [], []⟩).length⟩⟩],
             d2.pb2_directory.symlinks⟩
          (d2.index ++ [(name,
            PbNode.dir ⟨name, ⟨sha256hex (serializeDirectory ⟨[], [], []⟩),
              (serializeDirectory ⟨[], [], []⟩).length⟩⟩,
            some (.mk ⟨[], [], []⟩ []), false)]),
        .mk ⟨[], [], []⟩ []) := by
    unfold addNewBlankDirectory
    rw [hcont]
    simp only [Bool.false_eq_true, if_false]
    rw [hadd]
  refine ⟨cas2,
    updateChild
      (.mk ⟨d2.pb2_directory.files,
            d2.pb2_directory.directories ++
              [⟨name, ⟨sha256hex (serializeDirectory ⟨[], [], []⟩),
                (serializeDirectory ⟨[], [], []⟩).length⟩⟩],
            d2.pb2_directory.symlinks⟩
        (d2.index ++ [(name,
          PbNode.dir ⟨name, ⟨sha256hex (serializeDirectory ⟨[], [], []⟩),
            (serializeDirectory ⟨[], [], []⟩).length⟩⟩,
          some (.mk ⟨[], [], []⟩ []), false)]))
      name (.mk ⟨[], [], []⟩ []),
    ⟨sha256hex (serializeDirectory ⟨[], [], []⟩), (serializeDirectory ⟨[], [], []⟩).length⟩,
    ?_, ?_, ?_⟩
  · unfold descend
    rw [if_neg hname, hfind]
    simp only [if_true]
    rw [hblank]
    rfl
  · exact (find_childOf_updateChild _ _ _ hfind _ _ _ _).1
  · exact (find_childOf_updateChild _ _ _ hfind _ _ _ _).2

/-- C7: `create_directory` over a `FileNode` entry, or over a symlink that
resolves to a file, succeeds: the existing entry is removed and a fresh
empty subdirectory is created and returned under that name. -/
theorem create_directory_over_file (cas : CASState) (d : CasDir) (name : String)
    (hnodup : (d.index.map Prod.fst).Nodup) (hname : name ≠ "") :
    (∀ fn, find_pb2_entry d name = some (.file fn) →
      ∃ cas2 d2 sub dg, create_directory cas d name = .ok (cas2, d2, some sub) ∧
        sub.is_empty = true ∧
        find_pb2_entry d2 name = some (.dir ⟨name, dg⟩) ∧
        childOf d2 name = some sub) ∧
    (∀ sn f, find_pb2_entry d name = some (.sym sn) →
      resolve_symlink cas d [] sn = .ok (cas, d, .fileRes f) →
      ∃ cas2 d2 sub dg, create_directory cas d name = .ok (cas2, d2, some sub) ∧
        sub.is_empty = true ∧
        find_pb2_entry d2 name = some (.dir ⟨name, dg⟩) ∧
        childOf d2 name = some sub) := by
  have hdel := find_pb2_entry_delete d name hnodup
  have hfind2 : (delete_entry d name).index.find? (fun p => p.1 == name) = none := by
    unfold find_pb2_entry at hdel
    match hf : (delete_entry d name).index.find? (fun p => p.1 == name) with
    | none => exact hf
    | some p => rw [hf] at hdel; cases hdel
  obtain ⟨cas2, d3, dg, hdesc, hfind3, hchild3⟩ :=
    descend_create_fresh cas (delete_entry d name) name hname hfind2
  constructor
  · intro fn hfind
    refine ⟨cas2, d3, .mk ⟨[], [], []⟩ [], dg, ?_, rfl, hfind3, hchild3⟩
    simp only [create_directory, hfind, remove_item]
    rw [hdesc]
  · intro sn f hfind hres
    have hstd : symlink_target_is_directory cas d [] sn = .ok (cas, d, false) := by
      unfold symlink_target_is_directory
      rw [hres]
    refine ⟨cas2, d3, .mk ⟨[], [], []⟩ [], dg, ?_, rfl, hfind3, hchild3⟩
    simp only [create_directory, hfind]
    rw [hstd]
    simp only [remove_item]
    rw [hdesc]

/-- Witness for C7: a root holding one file `a` gets it replaced by a fresh
empty directory. -/
theorem create_directory_over_file_witness :
    ∃ cas2 d2 sub dg,
      create_directory ⟨[]⟩
          (.mk ⟨[⟨"a", ⟨"h", 1⟩, false⟩], [], []⟩
            [("a", .file ⟨"a", ⟨"h", 1⟩, false⟩, none, false)]) "a" =
        .ok (cas2, d2, some sub) ∧
      sub.is_empty = true ∧
      find_pb2_entry d2 "a" = some (.dir ⟨"a", dg⟩) ∧
      childOf d2 "a" = some sub :=
  (create_directory_over_file ⟨[]⟩
    (.mk ⟨[⟨"a", ⟨"h", 1⟩, false⟩], [], []⟩
      [("a", .file ⟨"a", ⟨"h", 1⟩, false⟩, none, false)]) "a"
    (by decide) (by decide)).1 ⟨"a", ⟨"h", 1⟩, false⟩ (by rfl)

/-! ### C8: segment lookup in `_resolve_symlink` -/

/-- C8 (code bug): resolving the symlink `s -> b/c` from the root — where
directory `b` holds the file `c` — fails with the source's misspelled,
undefined `VirtualDirectoryErorr` (a Python `NameError`): the second
segment `c` is looked up via `self.find_pb2_entry(c)` in the STARTING
directory instead of the directory reached so far, although the walk
directory `b` does hold the file `c` (second conjunct).  An absolute
target crashes the same way on its leading empty segment instead of
resolving from the root. -/
theorem resolve_symlink_wrong_directory :
    resolve_symlink ⟨[]⟩ rootC8 [] ⟨"s", "b/c"⟩ = .error .nameError ∧
    find_pb2_entry dirB "c" = some (.file fileC8) ∧
    resolve_symlink ⟨[]⟩ rootC8 [] ⟨"t", "/b"⟩ = .error .nameError := by
  refine ⟨by rfl, by rfl, by rfl⟩

/-! ## C9: `CASCache._remove_ref` -/

/-- C9 (code bug): `os.path.split` returns a single `(head, tail)` pair, so
the pruning loop of `_remove_ref` climbs exactly one level.  (1) Removing
`a/b/c` prunes `refs/heads/a/b` but leaves the now-empty `refs/heads/a`
behind, although (2) an `rmdir` on it would succeed — the claim says every
empty ancestor is pruned.  (3) `ENOTEMPTY` does halt pruning without an
error.  (4) Removing a last single-segment ref even prunes `refs/heads`
itself, which the claim says is never removed. -/
theorem remove_ref_prunes_one_level_only :
    remove_ref fsC9 "refs/heads" "a/b/c" =
      .ok ⟨[], ["refs", "refs/heads", "refs/heads/a"]⟩ ∧
    rmdir ⟨[], ["refs", "refs/heads", "refs/heads/a"]⟩ "refs/heads/a" =
      .ok ⟨[], ["refs", "refs/heads"]⟩ ∧
    remove_ref fsC9b "refs/heads" "a/b/c" =
      .ok ⟨["refs/heads/a/b/d"],
        ["refs", "refs/heads", "refs/heads/a", "refs/heads/a/b"]⟩ ∧
    remove_ref fsC9c "refs/heads" "a" = .ok ⟨[], ["refs"]⟩ := by
  decide
